import Mathlib

/-!
Verification development for the Industry-Resource-Mapping core
(`industry_resource_mapping/algorithms.py` and `instances.py`).

The Python source is embedded shallowly:
* dataclasses become structures; Python `int` becomes `Int`;
* identifier strings are built exactly as the source formats them;
* the mutable solver state (FIFO demand queue, per-article provider stacks,
  two id counters, accumulator lists) becomes an explicit `IterState`
  threaded through a step function, and the unbounded `while` loop becomes
  a fuel-indexed loop returning `none` when the fuel runs out;
* raising `UndefinedProductionError` becomes `Except.error`.
-/

namespace IRM

/-! ## Domain model (`instances.py`) -/

abbrev T_ArticleId := String
abbrev T_ProviderId := String
abbrev T_DemandId := String
abbrev T_ArticleProductionId := String

structure Article where
  id : T_ArticleId
deriving Repr, DecidableEq

structure Provider where
  id : T_ProviderId
  article : T_ArticleId
  amount : Int
  origin : Option T_ArticleProductionId := none
deriving Repr, DecidableEq

structure Demand where
  id : T_DemandId
  article : T_ArticleId
  amount : Int
  origin : Option T_ArticleProductionId := none
deriving Repr, DecidableEq

structure ArticleProduction where
  id : T_ArticleProductionId
  article : T_ArticleId
  requirements : List (T_ArticleId × Int)
  duration : Int
deriving Repr, DecidableEq

structure MappingInstance where
  name : String
  articles : List Article
  demands : List Demand
  providers : List Provider
  article_productions : List ArticleProduction
deriving Repr, DecidableEq

/-- One supply-to-demand edge.  The Python dataclass compares mappings by the
`(provider, demand)` pair only; here structural equality is used, which is
finer and only strengthens equational statements. -/
structure Mapping where
  provider : T_ProviderId
  demand : T_DemandId
  amount : Int
deriving Repr, DecidableEq

structure MappingResult where
  name : String
  instanceData : MappingInstance
  demands : List Demand
  providers : List Provider
  mappings : List Mapping
deriving Repr, DecidableEq

/-- `MappingInstance.article_productions_by_article`: the Python property builds
the dict `{p.article: p for p in self.article_productions}`, in which a later
production for the same article overwrites an earlier one; looking up on the
reversed list with `find?` reproduces that. -/
def article_productions_by_article (inst : MappingInstance) (a : T_ArticleId) :
    Option ArticleProduction :=
  inst.article_productions.reverse.find? (fun p => p.article == a)

/-! ## Errors (`algorithms.py`) -/

/-- `MappingError`/`UndefinedProductionError`: the one concrete error carries
the instance and the article without a registered production. -/
inductive MappingError where
  | undefined_production (inst : MappingInstance) (article : T_ArticleId)
deriving Repr, DecidableEq

/-! ## Generated identifiers (`IdManager`, `MappingAlgorithm.__init__`)

`MappingAlgorithm` owns two `IdManager`s whose format functions are
`"[Gen]D-{}".format` and `"[Gen]P-{}".format`; each `new()` increments the
counter and formats it. -/

def gen_demand_id (n : Nat) : String := "[Gen]D-" ++ Nat.repr n

def gen_provider_id (n : Nat) : String := "[Gen]P-" ++ Nat.repr n

/-- `IdManager`: only the counter is state; the format function is fixed per
manager and rendered by `gen_demand_id` / `gen_provider_id`. -/
structure IdManager where
  counter : Nat
deriving Repr, DecidableEq

def IdManager.reset (_ : IdManager) : IdManager := ⟨0⟩

/-- The engine object: the two id managers are the only state that survives
between `solve` calls (`MappingAlgorithm.__init__` / `_init`). -/
structure Engine where
  demand_id_manager : IdManager
  provider_id_manager : IdManager
deriving Repr, DecidableEq

/-! ## `plan_production_ignoring_existing`

A standalone planner: a LIFO stack of demands (Python `list.pop()` takes the
last element, so the head of the Lean list models the stack top and the
initial stack is the reversed demand list), no use of providers, and a demand
whose article has no production is recorded satisfied with no mappings. -/

def plan_construct_id (pfx : String) (i : Nat) : String :=
  "[Plan]" ++ pfx ++ Nat.repr i

structure PlanState where
  id_demands : Nat
  id_providers : Nat
  stack : List Demand
  demands_satisfied : List Demand
  providers : List Provider
  mappings : List Mapping
deriving Repr

/-- New demands pushed for the requirements of a production: Python pushes
them one by one (each becoming the new stack top), so in head-is-top
representation the reversed list is prepended. -/
def plan_new_demands (ap : ArticleProduction) (idd : Nat) (amount : Int) : List Demand :=
  ap.requirements.enum.map
    (fun p => ⟨plan_construct_id "D" (idd + p.1 + 1), p.2.1, p.2.2 * amount, some ap.id⟩)

def plan_step (inst : MappingInstance) (demand : Demand) (rest : List Demand)
    (s : PlanState) : PlanState :=
  match article_productions_by_article inst demand.article with
  | none =>
      ⟨s.id_demands, s.id_providers, rest,
       s.demands_satisfied ++ [demand], s.providers, s.mappings⟩
  | some ap =>
      let new_ds := plan_new_demands ap s.id_demands demand.amount
      let provider : Provider :=
        ⟨plan_construct_id "P" (s.id_providers + 1), demand.article, demand.amount, some ap.id⟩
      ⟨s.id_demands + ap.requirements.length, s.id_providers + 1,
       new_ds.reverse ++ rest,
       s.demands_satisfied ++ [demand],
       s.providers ++ [provider],
       s.mappings ++ [⟨provider.id, demand.id, demand.amount⟩]⟩

def plan_loop (inst : MappingInstance) : Nat → PlanState → Option PlanState
  | 0, s => if s.stack.isEmpty then some s else none
  | fuel + 1, s =>
      match s.stack with
      | [] => some s
      | demand :: rest => plan_loop inst fuel (plan_step inst demand rest s)

/-- `_plan_name` with the default format is `instance_name + ".plan"`. -/
def plan_name (instance_name : String) : String := instance_name ++ ".plan"

/-- `plan_production_ignoring_existing`, with fuel for the unbounded loop. -/
def plan_production_ignoring_existing (inst : MappingInstance) (fuel : Nat) :
    Option MappingResult :=
  (plan_loop inst fuel ⟨0, 0, inst.demands.reverse, [], [], []⟩).map
    (fun s => ⟨plan_name inst.name, inst, s.demands_satisfied, s.providers, s.mappings⟩)

/-! ## The `Iterative` engine

State of one `solve` run: the two id counters (reset by `_init`), the FIFO
demand queue (`deque`, popped at the front, pushed at the back), the
per-article provider stacks (`_unmapped_providers`, a `defaultdict(list)`;
Python appends/pops at the end of the list, so the head of the Lean list
models the stack top), and the three accumulator lists of `_solve`.
`_find_providers` mutates the stacks in place; here the mutation is returned
as a third component and written back by the step function. -/

structure ProviderAmount where
  provider : Provider
  amount : Int
deriving Repr, DecidableEq

structure IterState where
  demand_counter : Nat
  provider_counter : Nat
  queue : List Demand
  unmapped_providers : T_ArticleId → List ProviderAmount
  demands : List Demand
  providers : List Provider
  mappings : List Mapping

def update_stacks (st : T_ArticleId → List ProviderAmount) (a : T_ArticleId)
    (v : List ProviderAmount) : T_ArticleId → List ProviderAmount :=
  fun x => if x = a then v else st x

/-- `Iterative._init`: every instance provider is appended (hence pushed on
top) of its article's stack, with its full amount remaining. -/
def init_stacks (providers : List Provider) : T_ArticleId → List ProviderAmount :=
  providers.foldl
    (fun st p => update_stacks st p.article (⟨p, p.amount⟩ :: st p.article))
    (fun _ => [])

def init_state (inst : MappingInstance) : IterState :=
  ⟨0, 0, inst.demands, init_stacks inst.providers, [], [], []⟩

/-- `Iterative._find_providers`, as the loop body: returns the consumed
`(provider, amount_taken)` pairs (top of stack first), the unmet remainder,
and the stack left behind.  The source's early return for an empty stack
coincides with the base case. -/
def find_providers_loop : List ProviderAmount → Int →
    List ProviderAmount × Int × List ProviderAmount
  | [], amount_remaining => ([], amount_remaining, [])
  | top :: rest, amount_remaining =>
      if amount_remaining ≤ 0 then ([], amount_remaining, top :: rest)
      else if amount_remaining < top.amount then
        ([⟨top.provider, amount_remaining⟩], 0,
         ⟨top.provider, top.amount - amount_remaining⟩ :: rest)
      else
        let r := find_providers_loop rest (amount_remaining - top.amount)
        (⟨top.provider, top.amount⟩ :: r.1, r.2.1, r.2.2)

/-- `_find_providers`, selected by engine: `IterativeIgnoringExistingProviders`
overrides it to `return [], amount`, leaving the stacks untouched. -/
def find_providers (ignore : Bool) (stack : List ProviderAmount) (amount : Int) :
    List ProviderAmount × Int × List ProviderAmount :=
  if ignore then ([], amount, stack) else find_providers_loop stack amount

/-- The demands `_generate_production` pushes for the requirements of the
production, with the sequentially incremented demand counter: requirement
`(required_article, required_amount)` yields a demand for
`required_amount * amount` tagged with the production's id. -/
def gen_new_demands (ap : ArticleProduction) (dc : Nat) (amount : Int) : List Demand :=
  ap.requirements.enum.map
    (fun p => ⟨gen_demand_id (dc + p.1 + 1), p.2.1, p.2.2 * amount, some ap.id⟩)

/-- One iteration of the `while` loop in `Iterative._solve` (for a non-empty
queue): pop the front demand, map existing providers, and if an unmet
remainder is left, generate production for it or fail with
`UndefinedProductionError`.  The source's defensive
`assert sum(m.amount for m in demand_mappings) == demand.amount` is not
modelled as a failure path; it is instead proved as the full-satisfaction
invariant. -/
def iter_step (ignore : Bool) (inst : MappingInstance) (s : IterState) :
    Except MappingError IterState :=
  match s.queue with
  | [] => .ok s
  | demand :: qrest =>
      let fp := find_providers ignore (s.unmapped_providers demand.article) demand.amount
      let providers_existing := fp.1
      let amount_not_provided := fp.2.1
      let unmapped_providers' := update_stacks s.unmapped_providers demand.article fp.2.2
      let mappings_existing :=
        providers_existing.map (fun pa => Mapping.mk pa.provider.id demand.id pa.amount)
      let provs_existing := providers_existing.map ProviderAmount.provider
      if 0 < amount_not_provided then
        match article_productions_by_article inst demand.article with
        | none => .error (.undefined_production inst demand.article)
        | some ap =>
            let gen_ds := gen_new_demands ap s.demand_counter amount_not_provided
            let gp : Provider :=
              ⟨gen_provider_id (s.provider_counter + 1), demand.article,
               amount_not_provided, some ap.id⟩
            .ok ⟨s.demand_counter + ap.requirements.length, s.provider_counter + 1,
                 qrest ++ gen_ds, unmapped_providers',
                 s.demands ++ [demand],
                 s.providers ++ provs_existing ++ [gp],
                 s.mappings ++ mappings_existing ++ [⟨gp.id, demand.id, amount_not_provided⟩]⟩
      else
        .ok ⟨s.demand_counter, s.provider_counter, qrest, unmapped_providers',
             s.demands ++ [demand],
             s.providers ++ provs_existing,
             s.mappings ++ mappings_existing⟩

/-- The `while not self._q_empty()` loop, with fuel; `none` means the fuel ran
out before the queue emptied. -/
def solve_loop (ignore : Bool) (inst : MappingInstance) :
    Nat → IterState → Option (Except MappingError IterState)
  | 0, s => if s.queue.isEmpty then some (.ok s) else none
  | fuel + 1, s =>
      if s.queue.isEmpty then some (.ok s)
      else
        match iter_step ignore inst s with
        | .error e => some (.error e)
        | .ok s' => solve_loop ignore inst fuel s'

/-- `MappingAlgorithm._construct_result` with `_name_result`. -/
def construct_result (inst : MappingInstance) (s : IterState) : MappingResult :=
  ⟨inst.name ++ ".plan", inst, s.demands, s.providers, s.mappings⟩

/-- `Iterative.solve`, with fuel. -/
def Iterative.solveF (inst : MappingInstance) (fuel : Nat) :
    Option (Except MappingError MappingResult) :=
  (solve_loop false inst fuel (init_state inst)).map (Except.map (construct_result inst))

/-- `IterativeIgnoringExistingProviders.solve`, with fuel. -/
def Ignoring.solveF (inst : MappingInstance) (fuel : Nat) :
    Option (Except MappingError MappingResult) :=
  (solve_loop true inst fuel (init_state inst)).map (Except.map (construct_result inst))

/-- `out` is the outcome of `Iterative.solve` on `inst` (for some — hence, by
`solve_loop_mono`, every sufficient — amount of fuel). -/
def Iterative.Solves (inst : MappingInstance) (out : Except MappingError MappingResult) : Prop :=
  ∃ fuel, Iterative.solveF inst fuel = some out

def Ignoring.Solves (inst : MappingInstance) (out : Except MappingError MappingResult) : Prop :=
  ∃ fuel, Ignoring.solveF inst fuel = some out

/-- `solve` on a pre-existing engine object: `_init` resets both id managers
before `_solve` runs, so the run starts from counters `0` whatever the
engine's managers held. -/
def solve_with_engine (e : Engine) (inst : MappingInstance) (fuel : Nat) :
    Option (Except MappingError IterState) :=
  solve_loop false inst fuel
    ⟨e.demand_id_manager.reset.counter, e.provider_id_manager.reset.counter,
     inst.demands, init_stacks inst.providers, [], [], []⟩

/-! ## Spec properties (§3 invariants, §8 testable properties) -/

def sum_amounts (ms : List Mapping) : Int := (ms.map Mapping.amount).sum

/-- `sum(m.amount for m in mappings if m.demand == did)` -/
def demand_sum (ms : List Mapping) (did : T_DemandId) : Int :=
  sum_amounts (ms.filter (fun m => m.demand == did))

/-- `sum(m.amount for m in mappings if m.provider == pid)` -/
def provider_sum (ms : List Mapping) (pid : T_ProviderId) : Int :=
  sum_amounts (ms.filter (fun m => m.provider == pid))

/-- Full-satisfaction invariant over a result. -/
def FullSatisfaction (r : MappingResult) : Prop :=
  ∀ d ∈ r.demands, demand_sum r.mappings d.id = d.amount

instance (r : MappingResult) : Decidable (FullSatisfaction r) :=
  List.decidableBAll _ r.demands

/-- Identifier hygiene of the input, implicit in the data model's
identity-by-id convention: instance ids are pairwise distinct and do not
enter the generator's namespaces (generated ids all start with `'['`, which
the check forbids as a first character of an instance id). -/
def demand_ids_ok (inst : MappingInstance) : Prop :=
  (inst.demands.map Demand.id).Nodup ∧
  ∀ d ∈ inst.demands, d.id.data.head? ≠ some '['

def provider_ids_ok (inst : MappingInstance) : Prop :=
  (inst.providers.map Provider.id).Nodup ∧
  ∀ p ∈ inst.providers, p.id.data.head? ≠ some '['

instance (inst : MappingInstance) : Decidable (demand_ids_ok inst) := by
  unfold demand_ids_ok; infer_instance

instance (inst : MappingInstance) : Decidable (provider_ids_ok inst) := by
  unfold provider_ids_ok; infer_instance

/-- Data-model amount preconditions used by the full-satisfaction and
non-oversubscription arguments: non-negative demand amounts and requirement
multipliers. -/
def demand_amounts_ok (inst : MappingInstance) : Prop :=
  (∀ d ∈ inst.demands, 0 ≤ d.amount) ∧
  ∀ ap ∈ inst.article_productions, ∀ r ∈ ap.requirements, 0 ≤ r.2

instance (inst : MappingInstance) : Decidable (demand_amounts_ok inst) := by
  unfold demand_amounts_ok; infer_instance

/-! ## Concrete scenario instances (spec §8) -/

/-- A demanded article with no production: `plan_production_ignoring_existing`
passes over the demand without any mapping. -/
def exPlanNoProduction : MappingInstance :=
  ⟨"i1", [⟨"1"⟩], [⟨"d0", "1", 3, none⟩], [], []⟩

/-- The BOM-explosion scenario: article `"1"` demanded at amount 3, no
providers, production `"1" ← 2 × "2"`, article `"2"` unresolvable. -/
def exBom : MappingInstance :=
  ⟨"bom", [⟨"1"⟩, ⟨"2"⟩], [⟨"d0", "1", 3, none⟩], [], [⟨"AP1", "1", [("2", 2)], 0⟩]⟩

/-- The partial-existing-supply scenario: demand of 10, one provider of 4, and
a production recipe for the article. -/
def exPartial : MappingInstance :=
  ⟨"ps", [⟨"A"⟩], [⟨"d1", "A", 10, none⟩], [⟨"p1", "A", 4, none⟩], [⟨"AP", "A", [], 0⟩]⟩

/-- One provider of 5 split across two demands of 2: it appears once per
contribution in the result's provider list. -/
def exDup : MappingInstance :=
  ⟨"dup", [⟨"a"⟩], [⟨"d1", "a", 2, none⟩, ⟨"d2", "a", 2, none⟩], [⟨"p", "a", 5, none⟩], []⟩

/-- A provider with amount `0` (allowed by the data model's `amount ≥ 0`):
consuming it produces a `Mapping` of amount `0`. -/
def exZero : MappingInstance :=
  ⟨"z", [⟨"a"⟩], [⟨"d", "a", 5, none⟩], [⟨"p0", "a", 0, none⟩], [⟨"AP", "a", [], 0⟩]⟩

/-! ## Termination measure for acyclic recipe graphs (C4)

Acyclicity of the finite recipe graph is formalised by a rank function on
articles that strictly decreases from a production's output to each of its
requirements. -/

def rank_ok (inst : MappingInstance) (h : T_ArticleId → Nat) : Prop :=
  ∀ ap ∈ inst.article_productions, ∀ r ∈ ap.requirements, h r.1 < h ap.article

instance (inst : MappingInstance) (h : T_ArticleId → Nat) :
    Decidable (rank_ok inst h) := by
  unfold rank_ok; infer_instance

/-- Largest requirement count among the instance's productions. -/
def max_req (inst : MappingInstance) : Nat :=
  inst.article_productions.foldl (fun acc ap => max acc ap.requirements.length) 0

def dweight (inst : MappingInstance) (h : T_ArticleId → Nat) (a : T_ArticleId) : Nat :=
  (max_req inst + 1) ^ (h a)

/-- The termination measure: total weight of the queued demands. -/
def dmeasure (inst : MappingInstance) (h : T_ArticleId → Nat) (q : List Demand) : Nat :=
  (q.map (fun d => dweight inst h d.article)).sum

/-- At most one mapping per `(provider, demand)` pair. -/
def mappings_pairwise_unique (ms : List Mapping) : Prop :=
  List.Pairwise (fun m1 m2 => m1.provider ≠ m2.provider ∨ m1.demand ≠ m2.demand) ms

instance (ms : List Mapping) : Decidable (mappings_pairwise_unique ms) := by
  unfold mappings_pairwise_unique; infer_instance

def pa_sum (l : List ProviderAmount) : Int := (l.map ProviderAmount.amount).sum

/-- Amount of a given provider id still held by a stack. -/
def id_amount (l : List ProviderAmount) (pid : T_ProviderId) : Int :=
  pa_sum (l.filter (fun pa => pa.provider.id == pid))

/-! ## Run invariants

Classification of the ids that can occur during a run with counters `dc`
(demands) and `pc` (providers): an id either avoids the generator namespace
(instance ids, under the hygiene preconditions) or is a generated id with
index between 1 and the counter. -/

def dclass (dc : Nat) (d : Demand) : Prop :=
  d.id.data.head? ≠ some '[' ∨ ∃ k, 1 ≤ k ∧ k ≤ dc ∧ d.id = gen_demand_id k

/-- Demand-side loop invariant: processed-plus-queued demand ids are distinct
and classified, queued amounts are non-negative, every processed demand's
mapped sum equals its amount, and mappings only reference processed
demands. -/
def InvD (s : IterState) : Prop :=
  ((s.demands ++ s.queue).map Demand.id).Nodup ∧
  (∀ d ∈ s.demands ++ s.queue, dclass s.demand_counter d) ∧
  (∀ d ∈ s.queue, 0 ≤ d.amount) ∧
  (∀ d ∈ s.demands, demand_sum s.mappings d.id = d.amount) ∧
  (∀ m ∈ s.mappings, ∃ d ∈ s.demands, m.demand = d.id)

/-- Provider-side loop invariant: stack entries are instance providers of the
right article with non-negative remainders; per instance provider, mapped
total plus stack remainder equals the original amount; mapping provider ids
are classified; and every accumulated provider is an instance provider or a
generated one whose mapped total equals its amount exactly. -/
def InvP (inst : MappingInstance) (s : IterState) : Prop :=
  (∀ a, ∀ pa ∈ s.unmapped_providers a,
    pa.provider ∈ inst.providers ∧ pa.provider.article = a ∧ 0 ≤ pa.amount) ∧
  (∀ p ∈ inst.providers,
    provider_sum s.mappings p.id + id_amount (s.unmapped_providers p.article) p.id
      = p.amount) ∧
  (∀ m ∈ s.mappings, (∃ p ∈ inst.providers, m.provider = p.id) ∨
    ∃ k, 1 ≤ k ∧ k ≤ s.provider_counter ∧ m.provider = gen_provider_id k) ∧
  (∀ p ∈ s.providers, p ∈ inst.providers ∨
    ∃ k, 1 ≤ k ∧ k ≤ s.provider_counter ∧ p.id = gen_provider_id k ∧
      provider_sum s.mappings p.id = p.amount)

/-- Well-formedness loop invariant for mapping uniqueness and positivity:
demand ids as in `InvD`, stacks hold instance providers with strictly
positive remainders and per-article distinct ids, and the accumulated
mappings are pairwise distinct on `(provider, demand)` with positive
amounts. -/
def InvU (inst : MappingInstance) (s : IterState) : Prop :=
  ((s.demands ++ s.queue).map Demand.id).Nodup ∧
  (∀ d ∈ s.demands ++ s.queue, dclass s.demand_counter d) ∧
  (∀ a, ∀ pa ∈ s.unmapped_providers a,
    pa.provider ∈ inst.providers ∧ pa.provider.article = a ∧ 0 < pa.amount) ∧
  (∀ a, (((s.unmapped_providers a).map ProviderAmount.provider).map
    Provider.id).Nodup) ∧
  (∀ m ∈ s.mappings, ∃ d ∈ s.demands, m.demand = d.id) ∧
  mappings_pairwise_unique s.mappings ∧
  (∀ m ∈ s.mappings, 0 < m.amount)

/-- Ignore-existing-providers invariant: every accumulated mapping and
provider is generated. -/
def InvG (s : IterState) : Prop :=
  (∀ m ∈ s.mappings, ∃ k, 1 ≤ k ∧ k ≤ s.provider_counter ∧
    m.provider = gen_provider_id k) ∧
  (∀ p ∈ s.providers, ∃ k, 1 ≤ k ∧ k ≤ s.provider_counter ∧
    p.id = gen_provider_id k)

/-! ## Injectivity of the generated identifiers

`IdManager.new` formats a strictly increasing counter, so generated ids never
repeat; this rests on decimal rendering (`Nat.repr`) being injective, proved
here through `Nat.digits`. -/

theorem string_data_inj {s t : String} (h : s.data = t.data) : s = t := by
  cases s; cases t; exact congrArg String.mk h

theorem digitChar_inj_lt :
    ∀ a < 10, ∀ b < 10, Nat.digitChar a = Nat.digitChar b → a = b := by decide

theorem map_digitChar_inj : ∀ l1 l2 : List Nat, (∀ x ∈ l1, x < 10) →
    (∀ x ∈ l2, x < 10) → l1.map Nat.digitChar = l2.map Nat.digitChar → l1 = l2
  | [], [], _, _, _ => rfl
  | [], _ :: _, _, _, h => by simp at h
  | _ :: _, [], _, _, h => by simp at h
  | a :: l1, b :: l2, h1, h2, h => by
      simp only [List.map_cons, List.cons.injEq] at h
      have ha := h1 a (by simp)
      have hb := h2 b (by simp)
      have : a = b := digitChar_inj_lt a ha b hb h.1
      have : l1 = l2 := map_digitChar_inj l1 l2 (fun x hx => h1 x (by simp [hx]))
        (fun x hx => h2 x (by simp [hx])) h.2
      simp_all

theorem toDigitsCore_eq_digits (f : Nat) : ∀ n acc, 0 < n → n < f →
    Nat.toDigitsCore 10 f n acc = ((Nat.digits 10 n).map Nat.digitChar).reverse ++ acc := by
  induction f with
  | zero => intro n acc h0 hf; omega
  | succ f ih =>
      intro n acc h0 hf
      have hstep : Nat.toDigitsCore 10 (f + 1) n acc =
          if n / 10 = 0 then Nat.digitChar (n % 10) :: acc
          else Nat.toDigitsCore 10 f (n / 10) (Nat.digitChar (n % 10) :: acc) := rfl
      rw [hstep]
      by_cases hdiv : n / 10 = 0
      · simp only [hdiv, if_pos rfl]
        rw [Nat.digits_def' (by norm_num : 1 < 10) h0, hdiv]
        simp
      · rw [if_neg hdiv]
        have h0' : 0 < n / 10 := Nat.pos_of_ne_zero hdiv
        have hlt : n / 10 < f := by
          have := Nat.div_lt_self h0 (by norm_num : 1 < 10)
          omega
        rw [ih (n / 10) (Nat.digitChar (n % 10) :: acc) h0' hlt]
        rw [Nat.digits_def' (by norm_num : 1 < 10) h0]
        simp

theorem nat_repr_eq_digits (n : Nat) (h : 0 < n) :
    Nat.repr n = (((Nat.digits 10 n).map Nat.digitChar).reverse).asString := by
  show (Nat.toDigits 10 n).asString = _
  rw [Nat.toDigits, toDigitsCore_eq_digits (n + 1) n [] h (Nat.lt_succ_self n)]
  simp

theorem nat_repr_inj {m n : Nat} (h : Nat.repr m = Nat.repr n) : m = n := by
  rcases Nat.eq_zero_or_pos m with hm | hm <;> rcases Nat.eq_zero_or_pos n with hn | hn
  · omega
  · exfalso
    subst hm
    rw [nat_repr_eq_digits n hn] at h
    have hd : ['0'] = ((Nat.digits 10 n).map Nat.digitChar).reverse :=
      congrArg String.data h
    have hlen : ((Nat.digits 10 n).map Nat.digitChar).reverse.length = 1 := by
      rw [← hd]; rfl
    simp only [List.length_reverse, List.length_map] at hlen
    obtain ⟨d, hds⟩ := List.length_eq_one.mp hlen
    rw [hds] at hd
    simp only [List.map_cons, List.map_nil, List.reverse_cons, List.reverse_nil,
      List.nil_append, List.cons.injEq] at hd
    have hd10 : d < 10 := Nat.digits_lt_base (by norm_num) (by rw [hds]; simp)
    have : d = 0 := digitChar_inj_lt d hd10 0 (by norm_num) hd.1.symm
    subst this
    have := Nat.ofDigits_digits 10 n
    rw [hds] at this
    simp [Nat.ofDigits] at this
    omega
  · exfalso
    subst hn
    rw [nat_repr_eq_digits m hm] at h
    have hd : ((Nat.digits 10 m).map Nat.digitChar).reverse = ['0'] :=
      congrArg String.data h
    have hlen : ((Nat.digits 10 m).map Nat.digitChar).reverse.length = 1 := by
      rw [hd]; rfl
    simp only [List.length_reverse, List.length_map] at hlen
    obtain ⟨d, hds⟩ := List.length_eq_one.mp hlen
    rw [hds] at hd
    simp only [List.map_cons, List.map_nil, List.reverse_cons, List.reverse_nil,
      List.nil_append, List.cons.injEq] at hd
    have hd10 : d < 10 := Nat.digits_lt_base (by norm_num) (by rw [hds]; simp)
    have : d = 0 := digitChar_inj_lt d hd10 0 (by norm_num) hd.1
    subst this
    have := Nat.ofDigits_digits 10 m
    rw [hds] at this
    simp [Nat.ofDigits] at this
    omega
  · rw [nat_repr_eq_digits m hm, nat_repr_eq_digits n hn] at h
    have hd := congrArg String.data h
    simp only [List.asString] at hd
    have hrev : (Nat.digits 10 m).map Nat.digitChar = (Nat.digits 10 n).map Nat.digitChar := by
      have := congrArg List.reverse hd
      simpa using this
    have hdig : Nat.digits 10 m = Nat.digits 10 n :=
      map_digitChar_inj _ _ (fun x hx => Nat.digits_lt_base (by norm_num) hx)
        (fun x hx => Nat.digits_lt_base (by norm_num) hx) hrev
    have h1 := Nat.ofDigits_digits 10 m
    have h2 := Nat.ofDigits_digits 10 n
    rw [hdig] at h1
    omega

theorem gen_demand_id_inj {m n : Nat} (h : gen_demand_id m = gen_demand_id n) : m = n := by
  unfold gen_demand_id at h
  have hd := congrArg String.data h
  simp only [String.data_append] at hd
  exact nat_repr_inj (string_data_inj (List.append_cancel_left hd))

theorem gen_provider_id_inj {m n : Nat} (h : gen_provider_id m = gen_provider_id n) : m = n := by
  unfold gen_provider_id at h
  have hd := congrArg String.data h
  simp only [String.data_append] at hd
  exact nat_repr_inj (string_data_inj (List.append_cancel_left hd))

theorem gen_demand_id_head (n : Nat) : (gen_demand_id n).data.head? = some '[' := rfl

theorem gen_provider_id_head (n : Nat) : (gen_provider_id n).data.head? = some '[' := rfl

theorem ne_gen_demand_id {s : String} (h : s.data.head? ≠ some '[') (n : Nat) :
    s ≠ gen_demand_id n :=
  fun e => h (e ▸ gen_demand_id_head n)

theorem ne_gen_provider_id {s : String} (h : s.data.head? ≠ some '[') (n : Nat) :
    s ≠ gen_provider_id n :=
  fun e => h (e ▸ gen_provider_id_head n)

/-! ## Lemmas about `find_providers_loop`

Notation: `fpl st r = (need, rem, st')` where `need` is the consumed
`(provider, amount)` list (top first), `rem` the unmet remainder, `st'` the
stack left behind. -/

/-- Consumed plus remainder equals the requested amount. -/
theorem fpl_sum (st : List ProviderAmount) (r : Int) :
    pa_sum (find_providers_loop st r).1 + (find_providers_loop st r).2.1 = r := by
  induction st generalizing r with
  | nil => simp [find_providers_loop, pa_sum]
  | cons top rest ih =>
      by_cases h0 : r ≤ 0
      · simp [find_providers_loop, if_pos h0, pa_sum]
      · by_cases hlt : r < top.amount
        · simp [find_providers_loop, if_neg h0, if_pos hlt, pa_sum]
        · simp only [find_providers_loop, if_neg h0, if_neg hlt]
          have := ih (r - top.amount)
          simp only [pa_sum, List.map_cons, List.sum_cons] at this ⊢
          omega

/-- The remainder stays non-negative when the request is. -/
theorem fpl_rem_nonneg (st : List ProviderAmount) (r : Int) (h : 0 ≤ r) :
    0 ≤ (find_providers_loop st r).2.1 := by
  induction st generalizing r with
  | nil => simpa [find_providers_loop]
  | cons top rest ih =>
      by_cases h0 : r ≤ 0
      · simpa [find_providers_loop, if_pos h0]
      · by_cases hlt : r < top.amount
        · simp [find_providers_loop, if_neg h0, if_pos hlt]
        · simp only [find_providers_loop, if_neg h0, if_neg hlt]
          exact ih (r - top.amount) (by omega)

/-- The providers consumed form a prefix of the stack's providers. -/
theorem fpl_need_prefix (st : List ProviderAmount) (r : Int) :
    ∃ t, st.map ProviderAmount.provider =
      (find_providers_loop st r).1.map ProviderAmount.provider ++ t := by
  induction st generalizing r with
  | nil => exact ⟨[], by simp [find_providers_loop]⟩
  | cons top rest ih =>
      by_cases h0 : r ≤ 0
      · exact ⟨(top :: rest).map ProviderAmount.provider, by
          simp [find_providers_loop, if_pos h0]⟩
      · by_cases hlt : r < top.amount
        · exact ⟨rest.map ProviderAmount.provider, by
            simp [find_providers_loop, if_neg h0, if_pos hlt]⟩
        · obtain ⟨t, ht⟩ := ih (r - top.amount)
          exact ⟨t, by simp [find_providers_loop, if_neg h0, if_neg hlt, ht]⟩

/-- The residual stack's providers form a suffix of the stack's providers. -/
theorem fpl_rest_suffix (st : List ProviderAmount) (r : Int) :
    ∃ t, st.map ProviderAmount.provider =
      t ++ (find_providers_loop st r).2.2.map ProviderAmount.provider := by
  induction st generalizing r with
  | nil => exact ⟨[], by simp [find_providers_loop]⟩
  | cons top rest ih =>
      by_cases h0 : r ≤ 0
      · exact ⟨[], by simp [find_providers_loop, if_pos h0]⟩
      · by_cases hlt : r < top.amount
        · exact ⟨[], by simp [find_providers_loop, if_neg h0, if_pos hlt]⟩
        · obtain ⟨t, ht⟩ := ih (r - top.amount)
          exact ⟨top.provider :: t, by
            simp [find_providers_loop, if_neg h0, if_neg hlt, ht]⟩

theorem id_amount_nil (pid : T_ProviderId) : id_amount [] pid = 0 := rfl

theorem id_amount_cons (pa : ProviderAmount) (l : List ProviderAmount)
    (pid : T_ProviderId) :
    id_amount (pa :: l) pid =
      (if pa.provider.id == pid then pa.amount else 0) + id_amount l pid := by
  by_cases h : pa.provider.id == pid <;> simp [id_amount, pa_sum, List.filter_cons, h]

/-- Per-provider-id accounting: what the consumption takes from a given id
plus what the residual stack holds of it equals what the stack held. -/
theorem fpl_id_amount (st : List ProviderAmount) (r : Int) (pid : T_ProviderId) :
    id_amount (find_providers_loop st r).1 pid +
      id_amount (find_providers_loop st r).2.2 pid = id_amount st pid := by
  induction st generalizing r with
  | nil => simp [find_providers_loop, id_amount, pa_sum]
  | cons top rest ih =>
      by_cases h0 : r ≤ 0
      · simp [find_providers_loop, if_pos h0, id_amount, pa_sum]
      · by_cases hlt : r < top.amount
        · simp only [find_providers_loop, if_neg h0, if_pos hlt, id_amount_cons,
            id_amount_nil]
          by_cases hid : top.provider.id == pid
          · simp only [hid, ite_true]; omega
          · simp only [hid, ite_false, Bool.false_eq_true]; omega
        · have ihr := ih (r - top.amount)
          simp only [find_providers_loop, if_neg h0, if_neg hlt, id_amount_cons]
          by_cases hid : top.provider.id == pid <;> simp only [hid, ite_true, ite_false,
            if_pos, if_neg, reduceIte] <;> omega

/-- Residual stack amounts stay strictly positive. -/
theorem fpl_rest_pos (st : List ProviderAmount) (r : Int)
    (h : ∀ pa ∈ st, 0 < pa.amount) :
    ∀ pa ∈ (find_providers_loop st r).2.2, 0 < pa.amount := by
  induction st generalizing r with
  | nil => simp [find_providers_loop]
  | cons top rest ih =>
      by_cases h0 : r ≤ 0
      · intro pa hpa
        simp only [find_providers_loop, if_pos h0] at hpa
        exact h pa hpa
      · by_cases hlt : r < top.amount
        · intro pa hpa
          simp only [find_providers_loop, if_neg h0, if_pos hlt, List.mem_cons] at hpa
          rcases hpa with rfl | hpa
          · simp only []; omega
          · exact h pa (by simp [hpa])
        · simp only [find_providers_loop, if_neg h0, if_neg hlt]
          exact ih (r - top.amount) (fun pa hpa => h pa (by simp [hpa]))

/-- Residual stack amounts stay non-negative. -/
theorem fpl_rest_nonneg (st : List ProviderAmount) (r : Int)
    (h : ∀ pa ∈ st, 0 ≤ pa.amount) :
    ∀ pa ∈ (find_providers_loop st r).2.2, 0 ≤ pa.amount := by
  induction st generalizing r with
  | nil => simp [find_providers_loop]
  | cons top rest ih =>
      by_cases h0 : r ≤ 0
      · intro pa hpa
        simp only [find_providers_loop, if_pos h0] at hpa
        exact h pa hpa
      · by_cases hlt : r < top.amount
        · intro pa hpa
          simp only [find_providers_loop, if_neg h0, if_pos hlt, List.mem_cons] at hpa
          rcases hpa with rfl | hpa
          · simp only []; omega
          · exact h pa (by simp [hpa])
        · simp only [find_providers_loop, if_neg h0, if_neg hlt]
          exact ih (r - top.amount) (fun pa hpa => h pa (by simp [hpa]))

/-- Consumed amounts are strictly positive when stack amounts are. -/
theorem fpl_need_pos (st : List ProviderAmount) (r : Int)
    (h : ∀ pa ∈ st, 0 < pa.amount) :
    ∀ pa ∈ (find_providers_loop st r).1, 0 < pa.amount := by
  induction st generalizing r with
  | nil => simp [find_providers_loop]
  | cons top rest ih =>
      by_cases h0 : r ≤ 0
      · simp [find_providers_loop, if_pos h0]
      · by_cases hlt : r < top.amount
        · intro pa hpa
          simp only [find_providers_loop, if_neg h0, if_pos hlt,
            List.mem_singleton] at hpa
          subst hpa
          simp only []; omega
        · intro pa hpa
          simp only [find_providers_loop, if_neg h0, if_neg hlt, List.mem_cons] at hpa
          rcases hpa with rfl | hpa
          · exact h top (by simp)
          · exact ih (r - top.amount) (fun x hx => h x (by simp [hx])) pa hpa

/-! ## Generic facts about the solver loop -/

/-- Any property preserved by `iter_step` holds for the final state of a
completed run. -/
theorem solve_loop_preserves (ignore : Bool) (inst : MappingInstance)
    (P : IterState → Prop)
    (hstep : ∀ s s', iter_step ignore inst s = .ok s' → s.queue ≠ [] → P s → P s') :
    ∀ fuel s s', P s → solve_loop ignore inst fuel s = some (.ok s') → P s' := by
  intro fuel
  induction fuel with
  | zero =>
      intro s s' hP hloop
      by_cases hq : s.queue.isEmpty
      · simp only [solve_loop, hq, if_pos, ite_true] at hloop
        cases hloop
        exact hP
      · simp [solve_loop, hq] at hloop
  | succ fuel ih =>
      intro s s' hP hloop
      by_cases hq : s.queue.isEmpty
      · simp only [solve_loop, hq, ite_true] at hloop
        cases hloop
        exact hP
      · simp only [solve_loop, hq, ite_false, Bool.false_eq_true] at hloop
        cases hstep' : iter_step ignore inst s with
        | error e => rw [hstep'] at hloop; cases hloop
        | ok s1 =>
            rw [hstep'] at hloop
            have hne : s.queue ≠ [] := by
              intro h
              rw [List.isEmpty_iff] at hq
              exact hq h
            exact ih s1 s' (hstep s s1 hstep' hne hP) hloop

/-- `iter_step` fails only on a popped demand whose unmet remainder is
positive and whose article has no registered production, and the error names
the instance and that article. -/
theorem iter_step_error (ignore : Bool) (inst : MappingInstance) (s : IterState)
    (e : MappingError) (h : iter_step ignore inst s = .error e) :
    ∃ d rest, s.queue = d :: rest ∧
      0 < (find_providers ignore (s.unmapped_providers d.article) d.amount).2.1 ∧
      article_productions_by_article inst d.article = none ∧
      e = .undefined_production inst d.article := by
  cases hq : s.queue with
  | nil => rw [iter_step, hq] at h; cases h
  | cons d rest =>
      refine ⟨d, rest, rfl, ?_⟩
      rw [iter_step, hq] at h
      simp only [] at h
      by_cases hrem : 0 < (find_providers ignore (s.unmapped_providers d.article) d.amount).2.1
      · rw [if_pos hrem] at h
        cases hprod : article_productions_by_article inst d.article with
        | none =>
            rw [hprod] at h
            cases h
            exact ⟨hrem, rfl, rfl⟩
        | some ap => rw [hprod] at h; cases h
      · rw [if_neg hrem] at h
        cases h

/-- Every error surfaced by the loop comes from such a failing step. -/
theorem solve_loop_error (ignore : Bool) (inst : MappingInstance) :
    ∀ fuel s e, solve_loop ignore inst fuel s = some (.error e) →
      ∃ a, e = .undefined_production inst a ∧
        article_productions_by_article inst a = none := by
  intro fuel
  induction fuel with
  | zero =>
      intro s e hloop
      by_cases hq : s.queue.isEmpty <;> simp [solve_loop, hq] at hloop
  | succ fuel ih =>
      intro s e hloop
      by_cases hq : s.queue.isEmpty
      · simp [solve_loop, hq] at hloop
      · simp only [solve_loop, hq, ite_false, Bool.false_eq_true] at hloop
        cases hstep : iter_step ignore inst s with
        | error e' =>
            rw [hstep] at hloop
            have hee : e' = e := by
              have h1 := Option.some.inj hloop
              injection h1
            obtain ⟨d, rest, _, _, hprod, he⟩ := iter_step_error ignore inst s e' hstep
            exact ⟨d.article, hee ▸ he, hprod⟩
        | ok s1 =>
            rw [hstep] at hloop
            exact ih s1 e hloop

/-- A step on a non-empty queue whose popped demand has a positive unmet
remainder and no registered production raises `UndefinedProductionError`
naming the instance and that article. -/
theorem iter_step_error_of (ignore : Bool) (inst : MappingInstance) (s : IterState)
    (d : Demand) (rest : List Demand) (hq : s.queue = d :: rest)
    (hrem : 0 < (find_providers ignore (s.unmapped_providers d.article) d.amount).2.1)
    (hprod : article_productions_by_article inst d.article = none) :
    iter_step ignore inst s = .error (.undefined_production inst d.article) := by
  simp only [iter_step, hq, if_pos hrem, hprod]

/-! ## Claim theorems -/

/-- C3: during `Iterative.solve`, a popped demand with a positive unmet
remainder after existing-supply matching and no registered production for its
article makes the loop return, immediately, the `UndefinedProductionError`
carrying the instance and that article (and hence no partial result);
conversely every error the solve surfaces is of exactly that shape, for an
article with no registered production, and a step can only fail on a popped
demand that still has a positive unmet remainder for such an article. -/
theorem claim_C3_no_production_error :
    (∀ (inst : MappingInstance) (fuel : Nat) (s : IterState) (d : Demand)
        (rest : List Demand),
      s.queue = d :: rest →
      0 < (find_providers false (s.unmapped_providers d.article) d.amount).2.1 →
      article_productions_by_article inst d.article = none →
      solve_loop false inst (fuel + 1) s =
        some (.error (.undefined_production inst d.article))) ∧
    (∀ (inst : MappingInstance) (fuel : Nat) (e : MappingError),
      Iterative.solveF inst fuel = some (.error e) →
      ∃ a, e = .undefined_production inst a ∧
        article_productions_by_article inst a = none) ∧
    (∀ (ignore : Bool) (inst : MappingInstance) (s : IterState) (e : MappingError),
      iter_step ignore inst s = .error e →
      ∃ d rest, s.queue = d :: rest ∧
        0 < (find_providers ignore (s.unmapped_providers d.article) d.amount).2.1 ∧
        article_productions_by_article inst d.article = none ∧
        e = .undefined_production inst d.article) := by
  refine ⟨?_, ?_, iter_step_error⟩
  · intro inst fuel s d rest hq hrem hprod
    have hne : s.queue.isEmpty = false := by rw [hq]; rfl
    have hstep := iter_step_error_of false inst s d rest hq hrem hprod
    simp [solve_loop, hne, hstep]
  · intro inst fuel e h
    unfold Iterative.solveF at h
    cases hloop : solve_loop false inst fuel (init_state inst) with
    | none => rw [hloop] at h; cases h
    | some x =>
        rw [hloop] at h
        cases x with
        | ok s => simp [Except.map] at h
        | error e0 =>
            have hee : e0 = e := by simpa [Except.map] using h
            subst hee
            exact solve_loop_error false inst fuel (init_state inst) e0 hloop

/-- Witness for C3: on an instance demanding article `"1"` (amount 3) with no
providers and no productions, the solve aborts with
`UndefinedProductionError` for `"1"`; and the characterisation applied to the
BOM instance names article `"2"`. -/
theorem claim_C3_witness :
    (solve_loop false exPlanNoProduction 1 (init_state exPlanNoProduction) =
      some (.error (.undefined_production exPlanNoProduction "1"))) ∧
    ∃ a, (MappingError.undefined_production exBom "2") =
        .undefined_production exBom a ∧
      article_productions_by_article exBom a = none := by
  constructor
  · exact claim_C3_no_production_error.1 exPlanNoProduction 0
      (init_state exPlanNoProduction) ⟨"d0", "1", 3, none⟩ [] rfl (by decide) rfl
  · exact claim_C3_no_production_error.2.1 exBom 2
      (.undefined_production exBom "2") rfl

/-- C5: existing-supply matching consumes the provider stack from the most
recently pushed entry downward — a top provider holding strictly more than
needed is partially consumed in place and fully covers the demand; otherwise
its whole remaining amount is consumed, it is removed, and consumption
continues down the stack; consumed plus remainder always equals the request.
In the partial-supply scenario (demand 10, one provider of 4, recipe
present), the result maps 4 units from the provider and 6 from a newly
generated provider, summing to 10. -/
theorem claim_C5_stack_consumption :
    (∀ (top : ProviderAmount) (rest : List ProviderAmount) (r : Int),
        0 < r → r < top.amount →
        find_providers false (top :: rest) r =
          ([⟨top.provider, r⟩], 0, ⟨top.provider, top.amount - r⟩ :: rest)) ∧
    (∀ (top : ProviderAmount) (rest : List ProviderAmount) (r : Int),
        0 < r → top.amount ≤ r →
        find_providers false (top :: rest) r =
          (⟨top.provider, top.amount⟩ :: (find_providers_loop rest (r - top.amount)).1,
           (find_providers_loop rest (r - top.amount)).2.1,
           (find_providers_loop rest (r - top.amount)).2.2)) ∧
    (∀ (st : List ProviderAmount) (r : Int),
        pa_sum (find_providers false st r).1 + (find_providers false st r).2.1 = r) ∧
    (Iterative.solveF exPartial 3).map
        (Except.map (fun rr => (rr.mappings, rr.providers))) =
      some (.ok ([⟨"p1", "d1", 4⟩, ⟨gen_provider_id 1, "d1", 6⟩],
                 [⟨"p1", "A", 4, none⟩, ⟨gen_provider_id 1, "A", 6, some "AP"⟩])) ∧
    demand_sum [⟨"p1", "d1", 4⟩, ⟨gen_provider_id 1, "d1", 6⟩] "d1" = 10 := by
  refine ⟨?_, ?_, ?_, rfl, by decide⟩
  · intro top rest r h0 hlt
    have h0' : ¬ r ≤ 0 := by omega
    simp [find_providers, find_providers_loop, h0', hlt]
  · intro top rest r h0 hge
    have h0' : ¬ r ≤ 0 := by omega
    have hlt' : ¬ r < top.amount := by omega
    simp [find_providers, find_providers_loop, h0', hlt']
  · intro st r
    exact fpl_sum st r

/-- Witness for C5: a demand of 2 against a single stacked provider of 4 is
fully covered by partial consumption, leaving 2 on the stack. -/
theorem claim_C5_witness :
    (0 : Int) < 2 ∧ (2 : Int) < 4 ∧
    find_providers false [⟨⟨"p1", "A", 4, none⟩, 4⟩] 2 =
      ([⟨⟨"p1", "A", 4, none⟩, 2⟩], 0, [⟨⟨"p1", "A", 4, none⟩, 2⟩]) :=
  ⟨by decide, by decide,
    claim_C5_stack_consumption.1 ⟨⟨"p1", "A", 4, none⟩, 4⟩ [] 2 (by decide) (by decide)⟩

/-- C6: BOM explosion on the scenario instance — the first iteration
generates exactly one new demand for article `"2"` of amount `6 = 2 × 3`
with the production as origin, and one new provider for `"1"` of amount 3
fully mapped to the original demand; since `"2"` has neither provider nor
production, the solve then fails with `UndefinedProductionError` for `"2"`. -/
theorem claim_C6_bom_explosion :
    (iter_step false exBom (init_state exBom)).map
        (fun s => (s.queue, s.demands, s.providers, s.mappings)) =
      .ok ([⟨gen_demand_id 1, "2", 6, some "AP1"⟩],
           [⟨"d0", "1", 3, none⟩],
           [⟨gen_provider_id 1, "1", 3, some "AP1"⟩],
           [⟨gen_provider_id 1, "d0", 3⟩]) ∧
    Iterative.solveF exBom 2 = some (.error (.undefined_production exBom "2")) :=
  ⟨rfl, rfl⟩

/-- C8: determinism — a `solve` run is independent of the engine's previous
id-manager state (the managers are reset by `_init`), so fresh engines,
reused engines, and repeated calls all produce the identical run: the same
final counters (hence the same generated-id sequences) and the same demands,
providers and mappings. -/
theorem claim_C8_determinism (e1 e2 : Engine) (inst : MappingInstance) (fuel : Nat) :
    solve_with_engine e1 inst fuel = solve_with_engine e2 inst fuel ∧
    (solve_with_engine e1 inst fuel).map (Except.map (construct_result inst)) =
      Iterative.solveF inst fuel :=
  ⟨rfl, rfl⟩

/-- C10: the result's provider collection has one entry per contribution —
on the scenario instance the pre-existing provider `p` (amount 5) satisfies
two demands of 2 each and therefore appears twice in `providers`. -/
theorem claim_C10_provider_entries :
    (Iterative.solveF exDup 3).map (Except.map MappingResult.providers) =
      some (.ok [⟨"p", "a", 5, none⟩, ⟨"p", "a", 5, none⟩]) ∧
    (Iterative.solveF exDup 3).map (Except.map MappingResult.mappings) =
      some (.ok [⟨"p", "d1", 2⟩, ⟨"p", "d2", 2⟩]) ∧
    (⟨"p", "a", 5, none⟩ : Provider) ∈ exDup.providers ∧
    [(⟨"p", "a", 5, none⟩ : Provider), ⟨"p", "a", 5, none⟩].count ⟨"p", "a", 5, none⟩ = 2 :=
  ⟨rfl, rfl, by decide, by decide⟩

/-- C1 fails as stated: `plan_production_ignoring_existing` also produces
`MappingResult`s, and on an instance demanding an article with no registered
production it returns the demand with no mappings at all, so the mapped sum
is `0 ≠ 3`. -/
theorem claim_C1_counterexample :
    plan_production_ignoring_existing exPlanNoProduction 2 =
      some ⟨"i1.plan", exPlanNoProduction, [⟨"d0", "1", 3, none⟩], [], []⟩ ∧
    ¬ FullSatisfaction ⟨"i1.plan", exPlanNoProduction, [⟨"d0", "1", 3, none⟩], [], []⟩ :=
  ⟨rfl, by decide⟩

/-- C9 fails as stated: its precondition allows `Provider.amount = 0`, and
consuming a zero-amount provider emits a `Mapping` of amount `0`, violating
`Mapping.amount > 0` even though all instance amounts satisfy the stated
preconditions. -/
theorem claim_C9_counterexample :
    (∀ p ∈ exZero.providers, 0 ≤ p.amount) ∧
    (∀ d ∈ exZero.demands, 0 < d.amount) ∧
    (Iterative.solveF exZero 3).map (Except.map MappingResult.mappings) =
      some (.ok [⟨"p0", "d", 0⟩, ⟨gen_provider_id 1, "d", 5⟩]) ∧
    ¬ (∀ m ∈ [(⟨"p0", "d", 0⟩ : Mapping), ⟨gen_provider_id 1, "d", 5⟩], 0 < m.amount) :=
  ⟨by decide, by decide, rfl, by decide⟩

/-! ## Sum bookkeeping lemmas -/

theorem find_providers_false (st : List ProviderAmount) (r : Int) :
    find_providers false st r = find_providers_loop st r := rfl

theorem demand_sum_append (ms1 ms2 : List Mapping) (did : T_DemandId) :
    demand_sum (ms1 ++ ms2) did = demand_sum ms1 did + demand_sum ms2 did := by
  simp [demand_sum, sum_amounts, List.filter_append]

theorem provider_sum_append (ms1 ms2 : List Mapping) (pid : T_ProviderId) :
    provider_sum (ms1 ++ ms2) pid = provider_sum ms1 pid + provider_sum ms2 pid := by
  simp [provider_sum, sum_amounts, List.filter_append]

theorem demand_sum_all {ms : List Mapping} {did : T_DemandId}
    (h : ∀ m ∈ ms, m.demand = did) : demand_sum ms did = sum_amounts ms := by
  unfold demand_sum
  rw [List.filter_eq_self.mpr]
  intro m hm
  simpa using h m hm

theorem demand_sum_zero {ms : List Mapping} {did : T_DemandId}
    (h : ∀ m ∈ ms, m.demand ≠ did) : demand_sum ms did = 0 := by
  unfold demand_sum
  rw [List.filter_eq_nil_iff.mpr]
  · rfl
  · intro m hm
    simpa using h m hm

theorem provider_sum_zero {ms : List Mapping} {pid : T_ProviderId}
    (h : ∀ m ∈ ms, m.provider ≠ pid) : provider_sum ms pid = 0 := by
  unfold provider_sum
  rw [List.filter_eq_nil_iff.mpr]
  · rfl
  · intro m hm
    simpa using h m hm

theorem provider_sum_cons (m : Mapping) (ms : List Mapping) (pid : T_ProviderId) :
    provider_sum (m :: ms) pid =
      (if m.provider == pid then m.amount else 0) + provider_sum ms pid := by
  by_cases h : m.provider == pid <;> simp [provider_sum, sum_amounts, List.filter_cons, h]

theorem demand_sum_cons (m : Mapping) (ms : List Mapping) (did : T_DemandId) :
    demand_sum (m :: ms) did =
      (if m.demand == did then m.amount else 0) + demand_sum ms did := by
  by_cases h : m.demand == did <;> simp [demand_sum, sum_amounts, List.filter_cons, h]

/-- The provider-indexed sum of the mappings emitted for a consumption list
equals the per-id amount taken. -/
theorem provider_sum_of_need (need : List ProviderAmount) (did : T_DemandId)
    (pid : T_ProviderId) :
    provider_sum (need.map (fun pa => Mapping.mk pa.provider.id did pa.amount)) pid =
      id_amount need pid := by
  induction need with
  | nil => rfl
  | cons pa rest ih => rw [List.map_cons, provider_sum_cons, id_amount_cons, ih]

theorem id_amount_nonneg {l : List ProviderAmount} (pid : T_ProviderId)
    (h : ∀ pa ∈ l, 0 ≤ pa.amount) : 0 ≤ id_amount l pid := by
  unfold id_amount pa_sum
  apply List.sum_nonneg
  intro x hx
  obtain ⟨pa, hpa, rfl⟩ := List.mem_map.mp hx
  exact h pa (List.mem_filter.mp hpa).1

theorem sum_amounts_of_need (need : List ProviderAmount) (did : T_DemandId) :
    sum_amounts (need.map (fun pa => Mapping.mk pa.provider.id did pa.amount)) =
      pa_sum need := by
  simp only [sum_amounts, pa_sum, List.map_map]
  rfl

/-- A successful production lookup returns a production of the instance whose
output article is the looked-up article. -/
theorem productions_lookup_mem {inst : MappingInstance} {a : T_ArticleId}
    {ap : ArticleProduction} (h : article_productions_by_article inst a = some ap) :
    ap ∈ inst.article_productions ∧ ap.article = a := by
  unfold article_productions_by_article at h
  constructor
  · exact List.mem_reverse.mp (List.mem_of_find?_eq_some h)
  · have := List.find?_some h
    simpa using this

/-- Pairwise-distinct ids identify providers within the instance pool. -/
theorem provider_eq_of_id {inst : MappingInstance}
    (hn : (inst.providers.map Provider.id).Nodup) {p q : Provider}
    (hp : p ∈ inst.providers) (hq : q ∈ inst.providers) (he : p.id = q.id) : p = q :=
  List.inj_on_of_nodup_map hn hp hq he

/-- Shape of a successful `iter_step` on a non-empty queue: either the
production branch fired (positive remainder) or it did not. -/
theorem iter_step_ok_shape (ignore : Bool) (inst : MappingInstance) (s s' : IterState)
    (d : Demand) (qrest : List Demand) (hq : s.queue = d :: qrest)
    (h : iter_step ignore inst s = .ok s') :
    (0 < (find_providers ignore (s.unmapped_providers d.article) d.amount).2.1 ∧
      ∃ ap, article_productions_by_article inst d.article = some ap ∧
        s' = ⟨s.demand_counter + ap.requirements.length, s.provider_counter + 1,
          qrest ++ gen_new_demands ap s.demand_counter
            (find_providers ignore (s.unmapped_providers d.article) d.amount).2.1,
          update_stacks s.unmapped_providers d.article
            (find_providers ignore (s.unmapped_providers d.article) d.amount).2.2,
          s.demands ++ [d],
          s.providers ++ (find_providers ignore (s.unmapped_providers d.article)
              d.amount).1.map ProviderAmount.provider ++
            [⟨gen_provider_id (s.provider_counter + 1), d.article,
              (find_providers ignore (s.unmapped_providers d.article) d.amount).2.1,
              some ap.id⟩],
          s.mappings ++ (find_providers ignore (s.unmapped_providers d.article)
              d.amount).1.map
              (fun pa => Mapping.mk pa.provider.id d.id pa.amount) ++
            [⟨gen_provider_id (s.provider_counter + 1), d.id,
              (find_providers ignore (s.unmapped_providers d.article) d.amount).2.1⟩]⟩) ∨
    (¬ 0 < (find_providers ignore (s.unmapped_providers d.article) d.amount).2.1 ∧
      s' = ⟨s.demand_counter, s.provider_counter, qrest,
        update_stacks s.unmapped_providers d.article
          (find_providers ignore (s.unmapped_providers d.article) d.amount).2.2,
        s.demands ++ [d],
        s.providers ++ (find_providers ignore (s.unmapped_providers d.article)
            d.amount).1.map ProviderAmount.provider,
        s.mappings ++ (find_providers ignore (s.unmapped_providers d.article)
            d.amount).1.map (fun pa => Mapping.mk pa.provider.id d.id pa.amount)⟩) := by
  rw [iter_step, hq] at h
  simp only [] at h
  by_cases hrem : 0 < (find_providers ignore (s.unmapped_providers d.article) d.amount).2.1
  · left
    rw [if_pos hrem] at h
    refine ⟨hrem, ?_⟩
    cases hprod : article_productions_by_article inst d.article with
    | none => rw [hprod] at h; cases h
    | some ap =>
        rw [hprod] at h
        exact ⟨ap, rfl, (Except.ok.inj h).symm⟩
  · right
    rw [if_neg hrem] at h
    exact ⟨hrem, (Except.ok.inj h).symm⟩

/-! ## Structure of generated demands and of the initial stacks -/

theorem gen_new_demands_mem {ap : ArticleProduction} {dc : Nat} {amount : Int}
    {d : Demand} (h : d ∈ gen_new_demands ap dc amount) :
    (∃ k, dc + 1 ≤ k ∧ k ≤ dc + ap.requirements.length ∧ d.id = gen_demand_id k) ∧
    (∃ r ∈ ap.requirements, d.article = r.1 ∧ d.amount = r.2 * amount) := by
  obtain ⟨⟨i, r⟩, hm, rfl⟩ := List.mem_map.mp h
  have hg := List.mem_enum_iff_getElem?.mp hm
  simp only [] at hg
  have hmem : r ∈ ap.requirements := List.getElem?_mem hg
  have hlen : i < ap.requirements.length := by
    by_contra hge
    rw [List.getElem?_eq_none (by omega)] at hg
    cases hg
  exact ⟨⟨dc + i + 1, by omega, by omega, rfl⟩, ⟨r, hmem, rfl, rfl⟩⟩

theorem gen_new_demands_ids_nodup (ap : ArticleProduction) (dc : Nat) (amount : Int) :
    ((gen_new_demands ap dc amount).map Demand.id).Nodup := by
  unfold gen_new_demands
  rw [List.map_map]
  have he : (Demand.id ∘ fun p : Nat × (T_ArticleId × Int) =>
      (⟨gen_demand_id (dc + p.1 + 1), p.2.1, p.2.2 * amount, some ap.id⟩ : Demand)) =
      (fun i => gen_demand_id (dc + i + 1)) ∘ Prod.fst := rfl
  rw [he, ← List.map_map]
  apply List.Nodup.map
  · intro i j hij
    have := gen_demand_id_inj hij
    omega
  · exact List.nodup_enum_map_fst ap.requirements

/-- Closed form of the per-article stacks built by `_init`. -/
theorem init_stacks_aux (l : List Provider) (st0 : T_ArticleId → List ProviderAmount)
    (a : T_ArticleId) :
    l.foldl (fun st p => update_stacks st p.article (⟨p, p.amount⟩ :: st p.article)) st0 a =
      ((l.filter (fun p => p.article == a)).reverse).map
        (fun p => (⟨p, p.amount⟩ : ProviderAmount)) ++ st0 a := by
  induction l generalizing st0 with
  | nil => simp
  | cons p l ih =>
      rw [List.foldl_cons, ih]
      by_cases hpa : p.article = a
      · have heq : update_stacks st0 p.article (⟨p, p.amount⟩ :: st0 p.article) a =
            ⟨p, p.amount⟩ :: st0 a := by
          unfold update_stacks
          rw [if_pos hpa.symm, hpa]
        rw [heq]
        have hf : (p :: l).filter (fun q => q.article == a) =
            p :: l.filter (fun q => q.article == a) := by
          rw [List.filter_cons, if_pos (by simpa using hpa)]
        rw [hf, List.reverse_cons, List.map_append]
        simp
      · have heq : update_stacks st0 p.article (⟨p, p.amount⟩ :: st0 p.article) a =
            st0 a := by
          unfold update_stacks
          rw [if_neg (fun e => hpa e.symm)]
        rw [heq]
        have hf : (p :: l).filter (fun q => q.article == a) =
            l.filter (fun q => q.article == a) := by
          rw [List.filter_cons, if_neg (by simpa using hpa)]
        rw [hf]

theorem init_stacks_eq (providers : List Provider) (a : T_ArticleId) :
    init_stacks providers a =
      ((providers.filter (fun p => p.article == a)).reverse).map
        (fun p => (⟨p, p.amount⟩ : ProviderAmount)) := by
  unfold init_stacks
  rw [init_stacks_aux]
  simp

theorem init_stacks_mem {providers : List Provider} {a : T_ArticleId}
    {pa : ProviderAmount} (h : pa ∈ init_stacks providers a) :
    pa.provider ∈ providers ∧ pa.provider.article = a ∧ pa.amount = pa.provider.amount := by
  rw [init_stacks_eq] at h
  obtain ⟨p, hp, rfl⟩ := List.mem_map.mp h
  have hp2 := List.mem_reverse.mp hp
  have hf := List.mem_filter.mp hp2
  exact ⟨hf.1, by simpa using hf.2, rfl⟩

theorem filter_id_of_nodup (l : List Provider) (hn : (l.map Provider.id).Nodup)
    (p : Provider) (hp : p ∈ l) : l.filter (fun q => q.id == p.id) = [p] := by
  induction l with
  | nil => cases hp
  | cons q l ih =>
      rw [List.map_cons, List.nodup_cons] at hn
      rcases List.mem_cons.mp hp with rfl | hpl
      · rw [List.filter_cons, if_pos (by simp)]
        rw [List.filter_eq_nil_iff.mpr]
        intro x hx hqx
        exact hn.1 (by
          have : x.id = p.id := by simpa using hqx
          rw [← this]
          exact List.mem_map_of_mem Provider.id hx)
      · have hne : q.id ≠ p.id := by
          intro he
          exact hn.1 (he ▸ List.mem_map_of_mem Provider.id hpl)
        rw [List.filter_cons, if_neg (by simpa using hne)]
        exact ih hn.2 hpl

theorem id_amount_of_provider_list (l : List Provider) (pid : T_ProviderId) :
    id_amount (l.map (fun q => (⟨q, q.amount⟩ : ProviderAmount))) pid =
      ((l.filter (fun q => q.id == pid)).map Provider.amount).sum := by
  induction l with
  | nil => rfl
  | cons q l ih =>
      rw [List.map_cons, id_amount_cons, ih, List.filter_cons]
      by_cases h : q.id == pid
      · simp [h]
      · simp [h]

theorem id_amount_reverse (l : List ProviderAmount) (pid : T_ProviderId) :
    id_amount l.reverse pid = id_amount l pid := by
  unfold id_amount pa_sum
  rw [List.filter_reverse, List.map_reverse, List.sum_reverse]

/-- At initialisation, a provider with a pool-unique id holds exactly its
original amount on its article's stack. -/
theorem id_amount_init (providers : List Provider)
    (hn : (providers.map Provider.id).Nodup) (p : Provider) (hp : p ∈ providers) :
    id_amount (init_stacks providers p.article) p.id = p.amount := by
  rw [init_stacks_eq]
  have hmap : ((providers.filter (fun q => q.article == p.article)).reverse).map
      (fun q => (⟨q, q.amount⟩ : ProviderAmount)) =
      ((providers.filter (fun q => q.article == p.article)).map
        (fun q => (⟨q, q.amount⟩ : ProviderAmount))).reverse := by
    rw [List.map_reverse]
  rw [hmap, id_amount_reverse, id_amount_of_provider_list]
  have hsub : ((providers.filter (fun q => q.article == p.article)).map
      Provider.id).Nodup :=
    List.Nodup.sublist (List.Sublist.map Provider.id (List.filter_sublist _)) hn
  have hpf : p ∈ providers.filter (fun q => q.article == p.article) :=
    List.mem_filter.mpr ⟨hp, by simp⟩
  rw [filter_id_of_nodup _ hsub p hpf]
  simp

theorem init_stacks_ids_nodup (providers : List Provider)
    (hn : (providers.map Provider.id).Nodup) (a : T_ArticleId) :
    (((init_stacks providers a).map ProviderAmount.provider).map Provider.id).Nodup := by
  simp only [init_stacks_eq, List.map_reverse, List.nodup_reverse, List.map_map]
  have he : (Provider.id ∘ ProviderAmount.provider ∘
      fun p : Provider => (⟨p, p.amount⟩ : ProviderAmount)) = Provider.id := rfl
  rw [he]
  exact List.Nodup.sublist (List.Sublist.map Provider.id (List.filter_sublist _)) hn

/-! ## Preservation of the demand-side invariant -/

theorem dclass_mono {dc1 dc2 : Nat} (h : dc1 ≤ dc2) {d : Demand}
    (hc : dclass dc1 d) : dclass dc2 d := by
  rcases hc with h1 | ⟨k, hk1, hk2, he⟩
  · exact Or.inl h1
  · exact Or.inr ⟨k, hk1, le_trans hk2 h, he⟩

theorem InvD_step (inst : MappingInstance)
    (HA2 : ∀ ap ∈ inst.article_productions, ∀ r ∈ ap.requirements, 0 ≤ r.2)
    (s s' : IterState) (hstep : iter_step false inst s = .ok s')
    (hne : s.queue ≠ []) (hinv : InvD s) : InvD s' := by
  obtain ⟨h1, h2, h3, h4, h5⟩ := hinv
  cases hq : s.queue with
  | nil => exact absurd hq hne
  | cons d qrest =>
  rw [hq] at h1 h2 h3
  have hd_not_demands : ∀ x ∈ s.demands, x.id ≠ d.id := by
    intro x hx he
    have hdis : (s.demands.map Demand.id).Disjoint ((d :: qrest).map Demand.id) :=
      List.disjoint_of_nodup_append (by simpa using h1)
    exact hdis (he ▸ List.mem_map_of_mem Demand.id hx) (by simp)
  have hmap_ne_d : ∀ m ∈ s.mappings, m.demand ≠ d.id := by
    intro m hm he
    obtain ⟨x, hx, hxe⟩ := h5 m hm
    exact hd_not_demands x hx (hxe ▸ he)
  have hd0 : 0 ≤ d.amount := h3 d (by simp)
  have hblock : ∀ m ∈ (find_providers false (s.unmapped_providers d.article)
      d.amount).1.map (fun pa => Mapping.mk pa.provider.id d.id pa.amount),
      m.demand = d.id := by
    intro m hm
    obtain ⟨pa, _, rfl⟩ := List.mem_map.mp hm
    rfl
  have hsum : pa_sum (find_providers false (s.unmapped_providers d.article) d.amount).1 +
      (find_providers false (s.unmapped_providers d.article) d.amount).2.1 = d.amount := by
    rw [find_providers_false]
    exact fpl_sum _ _
  have hrnn : 0 ≤ (find_providers false (s.unmapped_providers d.article) d.amount).2.1 := by
    rw [find_providers_false]
    exact fpl_rem_nonneg _ _ hd0
  rcases iter_step_ok_shape false inst s s' d qrest hq hstep with
    ⟨hrem, ap, hprod, hs'⟩ | ⟨hrem, hs'⟩
  · -- production branch
    obtain ⟨hapmem, -⟩ := productions_lookup_mem hprod
    subst hs'
    refine ⟨?_, ?_, ?_, ?_, ?_⟩
    · show ((s.demands ++ [d] ++ (qrest ++ gen_new_demands ap s.demand_counter _)).map
        Demand.id).Nodup
      have hre : s.demands ++ [d] ++ (qrest ++ gen_new_demands ap s.demand_counter
          (find_providers false (s.unmapped_providers d.article) d.amount).2.1) =
          (s.demands ++ d :: qrest) ++ gen_new_demands ap s.demand_counter
            (find_providers false (s.unmapped_providers d.article) d.amount).2.1 := by
        simp
      rw [hre, List.map_append]
      refine List.nodup_append.mpr ⟨h1, gen_new_demands_ids_nodup ap _ _, ?_⟩
      intro x hx1 hx2
      obtain ⟨d1, hd1, rfl⟩ := List.mem_map.mp hx1
      obtain ⟨d2, hd2, he2⟩ := List.mem_map.mp hx2
      obtain ⟨⟨k2, hk21, hk22, hid2⟩, -⟩ := gen_new_demands_mem hd2
      rcases h2 d1 hd1 with hh | ⟨k1, hk11, hk12, hid1⟩
      · apply hh
        rw [← he2, hid2]
        exact gen_demand_id_head k2
      · have : k1 = k2 := gen_demand_id_inj (by rw [← hid1, ← he2]; exact hid2)
        omega
    · intro x hx
      simp only [List.mem_append] at hx
      rcases hx with (hx | hx) | hx | hx
      · exact dclass_mono (Nat.le_add_right _ _) (h2 x (by simp [hx]))
      · rw [List.mem_singleton] at hx
        subst hx
        exact dclass_mono (Nat.le_add_right _ _) (h2 x (by simp))
      · exact dclass_mono (Nat.le_add_right _ _) (h2 x (by simp [hx]))
      · obtain ⟨⟨k, hk1, hk2, hid⟩, -⟩ := gen_new_demands_mem hx
        refine Or.inr ⟨k, by omega, ?_, hid⟩
        show k ≤ s.demand_counter + ap.requirements.length
        omega
    · intro x hx
      rcases List.mem_append.mp hx with hx | hx
      · exact h3 x (by simp [hx])
      · obtain ⟨-, r, hr, -, hamt⟩ := gen_new_demands_mem hx
        rw [hamt]
        exact mul_nonneg (HA2 ap hapmem r hr) (le_of_lt hrem)
    · intro x hx
      rw [demand_sum_append, demand_sum_append]
      rcases List.mem_append.mp hx with hx | hx
      · have hxne : x.id ≠ d.id := hd_not_demands x hx
        rw [h4 x hx,
          demand_sum_zero (fun m hm => (hblock m hm).symm ▸ (fun e => hxne e.symm)),
          demand_sum_zero (by
            intro m hm he
            rw [List.mem_singleton] at hm
            subst hm
            exact hxne (he.symm))]
        ring
      · rw [List.mem_singleton] at hx
        subst hx
        rw [demand_sum_zero hmap_ne_d,
          demand_sum_all hblock, sum_amounts_of_need,
          demand_sum_all (by intro m hm; rw [List.mem_singleton] at hm; subst hm; rfl)]
        simp only [sum_amounts, List.map_cons, List.map_nil, List.sum_cons,
          List.sum_nil]
        omega
    · intro m hm
      simp only [List.mem_append] at hm
      rcases hm with (hm | hm) | hm
      · obtain ⟨x, hx, he⟩ := h5 m hm
        exact ⟨x, by simp [hx], he⟩
      · exact ⟨d, by simp, hblock m hm⟩
      · rw [List.mem_singleton] at hm
        subst hm
        exact ⟨d, by simp, rfl⟩
  · -- no production branch
    subst hs'
    have hrz : (find_providers false (s.unmapped_providers d.article) d.amount).2.1 = 0 := by
      omega
    refine ⟨?_, ?_, ?_, ?_, ?_⟩
    · show ((s.demands ++ [d] ++ qrest).map Demand.id).Nodup
      have hre : s.demands ++ [d] ++ qrest = s.demands ++ d :: qrest := by simp
      rw [hre]
      exact h1
    · intro x hx
      simp only [List.mem_append] at hx
      rcases hx with (hx | hx) | hx
      · exact h2 x (by simp [hx])
      · rw [List.mem_singleton] at hx
        subst hx
        exact h2 x (by simp)
      · exact h2 x (by simp [hx])
    · intro x hx
      exact h3 x (by simp [hx])
    · intro x hx
      rw [demand_sum_append]
      rcases List.mem_append.mp hx with hx | hx
      · have hxne : x.id ≠ d.id := hd_not_demands x hx
        rw [h4 x hx,
          demand_sum_zero (fun m hm => (hblock m hm).symm ▸ (fun e => hxne e.symm))]
        ring
      · rw [List.mem_singleton] at hx
        subst hx
        rw [demand_sum_zero hmap_ne_d, demand_sum_all hblock, sum_amounts_of_need]
        omega
    · intro m hm
      rcases List.mem_append.mp hm with hm | hm
      · obtain ⟨x, hx, he⟩ := h5 m hm
        exact ⟨x, by simp [hx], he⟩
      · exact ⟨d, by simp, hblock m hm⟩

theorem InvD_init (inst : MappingInstance)
    (HD1 : (inst.demands.map Demand.id).Nodup)
    (HD2 : ∀ d ∈ inst.demands, d.id.data.head? ≠ some '[')
    (HA1 : ∀ d ∈ inst.demands, 0 ≤ d.amount) : InvD (init_state inst) := by
  refine ⟨?_, ?_, ?_, ?_, ?_⟩
  · show (([] ++ inst.demands).map Demand.id).Nodup
    simpa using HD1
  · intro d hd
    exact Or.inl (HD2 d (by simpa [init_state] using hd))
  · intro d hd
    exact HA1 d (by simpa [init_state] using hd)
  · intro d hd
    exact absurd hd (List.not_mem_nil d)
  · intro m hm
    exact absurd hm (List.not_mem_nil m)

/-- Unpacking a successful solve into its final loop state. -/
theorem map_construct_ok {o : Option (Except MappingError IterState)}
    {inst : MappingInstance} {r : MappingResult}
    (h : o.map (Except.map (construct_result inst)) = some (.ok r)) :
    ∃ s', o = some (.ok s') ∧ r = construct_result inst s' := by
  cases o with
  | none => cases h
  | some x =>
      cases x with
      | ok s' =>
          refine ⟨s', rfl, ?_⟩
          have h2 : Except.map (construct_result inst) (.ok s') = .ok r :=
            Option.some.inj h
          have h3 := Except.ok.inj h2
          exact h3.symm
      | error e => simp [Except.map] at h

/-- C1 (amended): full satisfaction holds for every result of the `Iterative`
engine's `solve`, on instances whose demand ids are pairwise distinct and
outside the generator namespace and whose demand amounts and requirement
multipliers are non-negative; `plan_production_ignoring_existing` is excluded
(see the counterexample). -/
theorem claim_C1_full_satisfaction (inst : MappingInstance) (r : MappingResult)
    (hids : demand_ids_ok inst) (hamts : demand_amounts_ok inst)
    (hsol : Iterative.Solves inst (.ok r)) : FullSatisfaction r := by
  obtain ⟨fuel, hf⟩ := hsol
  unfold Iterative.solveF at hf
  obtain ⟨s', hloop, rfl⟩ := map_construct_ok hf
  have hinv : InvD s' :=
    solve_loop_preserves false inst InvD
      (fun s s1 hstep hne hP => InvD_step inst hamts.2 s s1 hstep hne hP)
      fuel (init_state inst) s'
      (InvD_init inst hids.1 hids.2 hamts.1) hloop
  intro d hd
  exact hinv.2.2.2.1 d hd

/-- Witness for the amended C1 on the partial-supply scenario. -/
theorem claim_C1_witness :
    demand_ids_ok exPartial ∧ demand_amounts_ok exPartial ∧
    FullSatisfaction ⟨"ps.plan", exPartial, [⟨"d1", "A", 10, none⟩],
      [⟨"p1", "A", 4, none⟩, ⟨gen_provider_id 1, "A", 6, some "AP"⟩],
      [⟨"p1", "d1", 4⟩, ⟨gen_provider_id 1, "d1", 6⟩]⟩ :=
  ⟨by decide, by decide,
    claim_C1_full_satisfaction exPartial _ (by decide) (by decide) ⟨3, rfl⟩⟩

/-! ## The ignore-existing-providers invariant (C7) -/

theorem find_providers_true (st : List ProviderAmount) (r : Int) :
    find_providers true st r = ([], r, st) := rfl

theorem InvG_step (inst : MappingInstance) (s s' : IterState)
    (hstep : iter_step true inst s = .ok s') (hne : s.queue ≠ [])
    (hinv : InvG s) : InvG s' := by
  obtain ⟨h1, h2⟩ := hinv
  cases hq : s.queue with
  | nil => exact absurd hq hne
  | cons d qrest =>
  rcases iter_step_ok_shape true inst s s' d qrest hq hstep with
    ⟨hrem, ap, hprod, hs'⟩ | ⟨hrem, hs'⟩
  · subst hs'
    constructor
    · intro m hm
      simp only [find_providers_true, List.map_nil, List.append_nil,
        List.mem_append, List.mem_singleton] at hm
      rcases hm with hm | rfl
      · obtain ⟨k, hk1, hk2, he⟩ := h1 m hm
        refine ⟨k, hk1, ?_, he⟩
        show k ≤ s.provider_counter + 1
        omega
      · refine ⟨s.provider_counter + 1, by omega, ?_, rfl⟩
        show s.provider_counter + 1 ≤ s.provider_counter + 1
        omega
    · intro p hp
      simp only [find_providers_true, List.map_nil, List.append_nil,
        List.mem_append, List.mem_singleton] at hp
      rcases hp with hp | rfl
      · obtain ⟨k, hk1, hk2, he⟩ := h2 p hp
        refine ⟨k, hk1, ?_, he⟩
        show k ≤ s.provider_counter + 1
        omega
      · refine ⟨s.provider_counter + 1, by omega, ?_, rfl⟩
        show s.provider_counter + 1 ≤ s.provider_counter + 1
        omega
  · subst hs'
    constructor
    · intro m hm
      simp only [find_providers_true, List.map_nil, List.append_nil] at hm
      exact h1 m hm
    · intro p hp
      simp only [find_providers_true, List.map_nil, List.append_nil] at hp
      exact h2 p hp

/-- C7: in ignore-existing-providers mode every mapping (and every provider
accumulated in the result) is generated via the production fallback; in
particular no mapping references a provider of the instance's pool (whose ids
stay outside the generator namespace); in the partial-supply scenario the
4-unit pool provider goes unused and one generated provider covers all 10
units. -/
theorem claim_C7_ignore_mode :
    (∀ (inst : MappingInstance) (r : MappingResult),
      (∀ p ∈ inst.providers, p.id.data.head? ≠ some '[') →
      Ignoring.Solves inst (.ok r) →
      (∀ m ∈ r.mappings, ∃ k, 1 ≤ k ∧ m.provider = gen_provider_id k) ∧
      (∀ m ∈ r.mappings, ∀ p ∈ inst.providers, m.provider ≠ p.id) ∧
      (∀ p ∈ r.providers, ∃ k, 1 ≤ k ∧ p.id = gen_provider_id k)) ∧
    (Ignoring.solveF exPartial 3).map
        (Except.map (fun rr => (rr.mappings, rr.providers))) =
      some (.ok ([⟨gen_provider_id 1, "d1", 10⟩],
                 [⟨gen_provider_id 1, "A", 10, some "AP"⟩])) := by
  refine ⟨?_, rfl⟩
  intro inst r hheads hsol
  obtain ⟨fuel, hf⟩ := hsol
  unfold Ignoring.solveF at hf
  obtain ⟨s', hloop, rfl⟩ := map_construct_ok hf
  have hinv : InvG s' :=
    solve_loop_preserves true inst InvG
      (fun s s1 hstep hne hP => InvG_step inst s s1 hstep hne hP)
      fuel (init_state inst) s'
      ⟨fun m hm => absurd hm (List.not_mem_nil m),
       fun p hp => absurd hp (List.not_mem_nil p)⟩ hloop
  refine ⟨?_, ?_, ?_⟩
  · intro m hm
    obtain ⟨k, hk1, -, he⟩ := hinv.1 m hm
    exact ⟨k, hk1, he⟩
  · intro m hm p hp
    obtain ⟨k, -, -, he⟩ := hinv.1 m hm
    rw [he]
    exact fun e => ne_gen_provider_id (hheads p hp) k e.symm
  · intro p hp
    obtain ⟨k, hk1, -, he⟩ := hinv.2 p hp
    exact ⟨k, hk1, he⟩

/-- Witness for C7 on the partial-supply scenario under the overriding
engine. -/
theorem claim_C7_witness :
    (∀ p ∈ exPartial.providers, p.id.data.head? ≠ some '[') ∧
    ((∀ m ∈ [(⟨gen_provider_id 1, "d1", 10⟩ : Mapping)],
        ∃ k, 1 ≤ k ∧ m.provider = gen_provider_id k) ∧
      (∀ m ∈ [(⟨gen_provider_id 1, "d1", 10⟩ : Mapping)],
        ∀ p ∈ exPartial.providers, m.provider ≠ p.id) ∧
      (∀ p ∈ [(⟨gen_provider_id 1, "A", 10, some "AP"⟩ : Provider)],
        ∃ k, 1 ≤ k ∧ p.id = gen_provider_id k)) :=
  ⟨by decide,
    claim_C7_ignore_mode.1 exPartial
      ⟨"ps.plan", exPartial, [⟨"d1", "A", 10, none⟩],
        [⟨gen_provider_id 1, "A", 10, some "AP"⟩],
        [⟨gen_provider_id 1, "d1", 10⟩]⟩
      (by decide) ⟨3, rfl⟩⟩

/-! ## Preservation of the provider-accounting invariant (C2) -/

theorem update_stacks_same (f : T_ArticleId → List ProviderAmount) (a : T_ArticleId)
    (v : List ProviderAmount) : update_stacks f a v a = v := by
  unfold update_stacks
  simp

theorem update_stacks_other (f : T_ArticleId → List ProviderAmount) (a : T_ArticleId)
    (v : List ProviderAmount) (x : T_ArticleId) (h : x ≠ a) :
    update_stacks f a v x = f x := by
  unfold update_stacks
  rw [if_neg h]

theorem fpl_need_provider_mem {st : List ProviderAmount} {r : Int}
    {pa : ProviderAmount} (h : pa ∈ (find_providers_loop st r).1) :
    ∃ pa0 ∈ st, pa0.provider = pa.provider := by
  obtain ⟨t, ht⟩ := fpl_need_prefix st r
  have hmem : pa.provider ∈ st.map ProviderAmount.provider := by
    rw [ht]
    exact List.mem_append_left _ (List.mem_map_of_mem _ h)
  obtain ⟨pa0, h0, he⟩ := List.mem_map.mp hmem
  exact ⟨pa0, h0, he⟩

theorem fpl_rest_provider_mem {st : List ProviderAmount} {r : Int}
    {pa : ProviderAmount} (h : pa ∈ (find_providers_loop st r).2.2) :
    ∃ pa0 ∈ st, pa0.provider = pa.provider := by
  obtain ⟨t, ht⟩ := fpl_rest_suffix st r
  have hmem : pa.provider ∈ st.map ProviderAmount.provider := by
    rw [ht]
    exact List.mem_append_right _ (List.mem_map_of_mem _ h)
  obtain ⟨pa0, h0, he⟩ := List.mem_map.mp hmem
  exact ⟨pa0, h0, he⟩

/-- Field-wise version of `iter_step_ok_shape`, convenient for rewriting. -/
theorem iter_step_ok_fields (ignore : Bool) (inst : MappingInstance)
    (s s' : IterState) (d : Demand) (qrest : List Demand)
    (hq : s.queue = d :: qrest) (h : iter_step ignore inst s = .ok s') :
    (0 < (find_providers ignore (s.unmapped_providers d.article) d.amount).2.1 ∧
      ∃ ap, article_productions_by_article inst d.article = some ap ∧
        s'.demand_counter = s.demand_counter + ap.requirements.length ∧
        s'.provider_counter = s.provider_counter + 1 ∧
        s'.queue = qrest ++ gen_new_demands ap s.demand_counter
          (find_providers ignore (s.unmapped_providers d.article) d.amount).2.1 ∧
        s'.unmapped_providers = update_stacks s.unmapped_providers d.article
          (find_providers ignore (s.unmapped_providers d.article) d.amount).2.2 ∧
        s'.demands = s.demands ++ [d] ∧
        s'.providers = s.providers ++ (find_providers ignore
            (s.unmapped_providers d.article) d.amount).1.map ProviderAmount.provider ++
          [⟨gen_provider_id (s.provider_counter + 1), d.article,
            (find_providers ignore (s.unmapped_providers d.article) d.amount).2.1,
            some ap.id⟩] ∧
        s'.mappings = s.mappings ++ (find_providers ignore
            (s.unmapped_providers d.article) d.amount).1.map
            (fun pa => Mapping.mk pa.provider.id d.id pa.amount) ++
          [⟨gen_provider_id (s.provider_counter + 1), d.id,
            (find_providers ignore (s.unmapped_providers d.article) d.amount).2.1⟩]) ∨
    (¬ 0 < (find_providers ignore (s.unmapped_providers d.article) d.amount).2.1 ∧
      s'.demand_counter = s.demand_counter ∧
      s'.provider_counter = s.provider_counter ∧
      s'.queue = qrest ∧
      s'.unmapped_providers = update_stacks s.unmapped_providers d.article
        (find_providers ignore (s.unmapped_providers d.article) d.amount).2.2 ∧
      s'.demands = s.demands ++ [d] ∧
      s'.providers = s.providers ++ (find_providers ignore
          (s.unmapped_providers d.article) d.amount).1.map ProviderAmount.provider ∧
      s'.mappings = s.mappings ++ (find_providers ignore
          (s.unmapped_providers d.article) d.amount).1.map
          (fun pa => Mapping.mk pa.provider.id d.id pa.amount)) := by
  rcases iter_step_ok_shape ignore inst s s' d qrest hq h with
    ⟨hrem, ap, hprod, hs'⟩ | ⟨hrem, hs'⟩
  · subst hs'
    exact Or.inl ⟨hrem, ap, hprod, rfl, rfl, rfl, rfl, rfl, rfl, rfl⟩
  · subst hs'
    exact Or.inr ⟨hrem, rfl, rfl, rfl, rfl, rfl, rfl, rfl⟩

theorem InvP_step (inst : MappingInstance)
    (HP1 : (inst.providers.map Provider.id).Nodup)
    (HP2 : ∀ p ∈ inst.providers, p.id.data.head? ≠ some '[')
    (s s' : IterState) (hstep : iter_step false inst s = .ok s')
    (hne : s.queue ≠ []) (hinv : InvP inst s) : InvP inst s' := by
  obtain ⟨hP1, hP2sum, hP3, hP4⟩ := hinv
  cases hq : s.queue with
  | nil => exact absurd hq hne
  | cons d qrest =>
  have hneed : ∀ pa ∈ (find_providers false (s.unmapped_providers d.article)
      d.amount).1, pa.provider ∈ inst.providers ∧ pa.provider.article = d.article := by
    intro pa hpa
    rw [find_providers_false] at hpa
    obtain ⟨pa0, h0, he⟩ := fpl_need_provider_mem hpa
    obtain ⟨hm, ha, -⟩ := hP1 d.article pa0 h0
    exact ⟨he ▸ hm, he ▸ ha⟩
  have hblock_ids : ∀ m ∈ (find_providers false (s.unmapped_providers d.article)
      d.amount).1.map (fun pa => Mapping.mk pa.provider.id d.id pa.amount),
      ∃ q ∈ inst.providers, m.provider = q.id ∧ q.article = d.article := by
    intro m hm
    obtain ⟨pa, hpa, rfl⟩ := List.mem_map.mp hm
    obtain ⟨hmem, ha⟩ := hneed pa hpa
    exact ⟨pa.provider, hmem, rfl, ha⟩
  have hblock_not_gen : ∀ m ∈ (find_providers false (s.unmapped_providers d.article)
      d.amount).1.map (fun pa => Mapping.mk pa.provider.id d.id pa.amount),
      ∀ k, m.provider ≠ gen_provider_id k := by
    intro m hm k
    obtain ⟨q, hq', he, -⟩ := hblock_ids m hm
    rw [he]
    exact ne_gen_provider_id (HP2 q hq') k
  -- stacks stay well-formed
  have hstack1 : ∀ a, ∀ pa ∈ update_stacks s.unmapped_providers d.article
      (find_providers false (s.unmapped_providers d.article) d.amount).2.2 a,
      pa.provider ∈ inst.providers ∧ pa.provider.article = a ∧ 0 ≤ pa.amount := by
    intro a pa hpa
    by_cases hax : a = d.article
    · subst hax
      rw [update_stacks_same] at hpa
      rw [find_providers_false] at hpa
      obtain ⟨pa0, h0, he⟩ := fpl_rest_provider_mem hpa
      obtain ⟨hm, ha, -⟩ := hP1 d.article pa0 h0
      have hnn : 0 ≤ pa.amount := by
        refine fpl_rest_nonneg (s.unmapped_providers d.article) d.amount ?_ pa hpa
        intro x hx
        exact (hP1 d.article x hx).2.2
      exact ⟨he ▸ hm, he ▸ ha, hnn⟩
    · rw [update_stacks_other _ _ _ _ hax] at hpa
      exact hP1 a pa hpa
  -- existing-provider accounting over the step's block of mappings
  have hblocksum : ∀ p ∈ inst.providers,
      provider_sum (s.mappings ++ (find_providers false (s.unmapped_providers
        d.article) d.amount).1.map
        (fun pa => Mapping.mk pa.provider.id d.id pa.amount)) p.id +
      id_amount (update_stacks s.unmapped_providers d.article
        (find_providers false (s.unmapped_providers d.article) d.amount).2.2
        p.article) p.id = p.amount := by
    intro p hp
    rw [provider_sum_append]
    by_cases hax : p.article = d.article
    · rw [hax, update_stacks_same, provider_sum_of_need]
      have hacc : id_amount (find_providers false (s.unmapped_providers d.article)
          d.amount).1 p.id +
          id_amount (find_providers false (s.unmapped_providers d.article)
            d.amount).2.2 p.id =
          id_amount (s.unmapped_providers d.article) p.id := by
        rw [find_providers_false]
        exact fpl_id_amount _ _ _
      have hold := hP2sum p hp
      rw [hax] at hold
      omega
    · have hz : provider_sum ((find_providers false (s.unmapped_providers d.article)
          d.amount).1.map (fun pa => Mapping.mk pa.provider.id d.id pa.amount))
          p.id = 0 := by
        refine provider_sum_zero ?_
        intro m hm he
        obtain ⟨q, hq', heq, hqa⟩ := hblock_ids m hm
        have hqp : q = p := provider_eq_of_id HP1 hq' hp (by rw [← heq, he])
        exact hax (by rw [← hqp, hqa])
      rw [update_stacks_other _ _ _ _ hax, hz]
      have hold := hP2sum p hp
      omega
  -- no mapping of the block names a generated id that existed before
  have hz_block : ∀ k, provider_sum ((find_providers false
      (s.unmapped_providers d.article) d.amount).1.map
      (fun pa => Mapping.mk pa.provider.id d.id pa.amount))
      (gen_provider_id k) = 0 := by
    intro k
    refine provider_sum_zero ?_
    intro m hm
    exact hblock_not_gen m hm k
  rcases iter_step_ok_fields false inst s s' d qrest hq hstep with
    ⟨hrem, ap, hprod, hdc, hpc, hqs, hst, hdem, hprov, hmap⟩ |
    ⟨hrem, hdc, hpc, hqs, hst, hdem, hprov, hmap⟩
  · refine ⟨?_, ?_, ?_, ?_⟩
    · rw [hst]
      exact hstack1
    · intro p hp
      rw [hmap, hst, provider_sum_append]
      have hgz : provider_sum [(⟨gen_provider_id (s.provider_counter + 1), d.id,
          (find_providers false (s.unmapped_providers d.article) d.amount).2.1⟩ :
            Mapping)] p.id = 0 := by
        refine provider_sum_zero ?_
        intro m hm
        rw [List.mem_singleton] at hm
        subst hm
        exact fun e => ne_gen_provider_id (HP2 p hp) (s.provider_counter + 1) e.symm
      rw [hgz]
      have := hblocksum p hp
      omega
    · intro m hm
      rw [hmap] at hm
      simp only [List.mem_append, List.mem_singleton] at hm
      rcases hm with (hm | hm) | rfl
      · rcases hP3 m hm with h | ⟨k, hk1, hk2, he⟩
        · exact Or.inl h
        · exact Or.inr ⟨k, hk1, by omega, he⟩
      · obtain ⟨q, hq', he, -⟩ := hblock_ids m hm
        exact Or.inl ⟨q, hq', he⟩
      · exact Or.inr ⟨s.provider_counter + 1, by omega, by omega, rfl⟩
    · intro p hp
      rw [hprov] at hp
      simp only [List.mem_append, List.mem_singleton] at hp
      rcases hp with (hp | hp) | rfl
      · rcases hP4 p hp with h | ⟨k, hk1, hk2, he, hsum⟩
        · exact Or.inl h
        · refine Or.inr ⟨k, hk1, by omega, he, ?_⟩
          have hz2 : provider_sum [(⟨gen_provider_id (s.provider_counter + 1), d.id,
              (find_providers false (s.unmapped_providers d.article) d.amount).2.1⟩ :
                Mapping)] (gen_provider_id k) = 0 := by
            refine provider_sum_zero ?_
            intro m hm hme
            rw [List.mem_singleton] at hm
            subst hm
            have := gen_provider_id_inj hme
            omega
          rw [hmap, provider_sum_append, provider_sum_append, he, hz_block k, hz2]
          rw [he] at hsum
          omega
      · obtain ⟨pa, hpa, rfl⟩ := List.mem_map.mp hp
        rw [find_providers_false] at hpa
        obtain ⟨pa0, h0, heq⟩ := fpl_need_provider_mem hpa
        exact Or.inl (heq ▸ (hP1 d.article pa0 h0).1)
      · refine Or.inr ⟨s.provider_counter + 1, by omega, by omega, rfl, ?_⟩
        show provider_sum s'.mappings (gen_provider_id (s.provider_counter + 1)) =
          (find_providers false (s.unmapped_providers d.article) d.amount).2.1
        have hz0 : provider_sum s.mappings
            (gen_provider_id (s.provider_counter + 1)) = 0 := by
          refine provider_sum_zero ?_
          intro m hm hme
          rcases hP3 m hm with ⟨q, hq', heq⟩ | ⟨k, hk1, hk2, heq⟩
          · exact ne_gen_provider_id (HP2 q hq') (s.provider_counter + 1)
              (by rw [← heq]; exact hme)
          · rw [heq] at hme
            have := gen_provider_id_inj hme
            omega
        have hz2 : provider_sum [(⟨gen_provider_id (s.provider_counter + 1), d.id,
            (find_providers false (s.unmapped_providers d.article) d.amount).2.1⟩ :
              Mapping)] (gen_provider_id (s.provider_counter + 1)) =
            (find_providers false (s.unmapped_providers d.article) d.amount).2.1 := by
          rw [provider_sum_cons]
          simp [provider_sum, sum_amounts]
        rw [hmap, provider_sum_append, provider_sum_append, hz0,
          hz_block (s.provider_counter + 1), hz2]
        omega
  · refine ⟨?_, ?_, ?_, ?_⟩
    · rw [hst]
      exact hstack1
    · intro p hp
      rw [hmap, hst]
      exact hblocksum p hp
    · intro m hm
      rw [hmap] at hm
      rcases List.mem_append.mp hm with hm | hm
      · rcases hP3 m hm with h | ⟨k, hk1, hk2, he⟩
        · exact Or.inl h
        · exact Or.inr ⟨k, hk1, by omega, he⟩
      · obtain ⟨q, hq', he, -⟩ := hblock_ids m hm
        exact Or.inl ⟨q, hq', he⟩
    · intro p hp
      rw [hprov] at hp
      rcases List.mem_append.mp hp with hp | hp
      · rcases hP4 p hp with h | ⟨k, hk1, hk2, he, hsum⟩
        · exact Or.inl h
        · refine Or.inr ⟨k, hk1, by omega, he, ?_⟩
          rw [hmap, provider_sum_append, he, hz_block k]
          rw [he] at hsum
          omega
      · obtain ⟨pa, hpa, rfl⟩ := List.mem_map.mp hp
        rw [find_providers_false] at hpa
        obtain ⟨pa0, h0, heq⟩ := fpl_need_provider_mem hpa
        exact Or.inl (heq ▸ (hP1 d.article pa0 h0).1)

theorem InvP_init (inst : MappingInstance)
    (HP1 : (inst.providers.map Provider.id).Nodup)
    (HPA : ∀ p ∈ inst.providers, 0 ≤ p.amount) : InvP inst (init_state inst) := by
  refine ⟨?_, ?_, ?_, ?_⟩
  · intro a pa hpa
    have hpa' : pa ∈ init_stacks inst.providers a := hpa
    obtain ⟨hm, ha, he⟩ := init_stacks_mem hpa'
    exact ⟨hm, ha, he ▸ HPA pa.provider hm⟩
  · intro p hp
    show provider_sum [] p.id +
      id_amount (init_stacks inst.providers p.article) p.id = p.amount
    rw [id_amount_init inst.providers HP1 p hp]
    simp [provider_sum, sum_amounts]
  · intro m hm
    exact absurd hm (List.not_mem_nil m)
  · intro p hp
    exact absurd hp (List.not_mem_nil p)

/-- C2: provider non-oversubscription — in every result of `Iterative.solve`
on an instance with pool-unique, non-generated provider ids and non-negative
provider amounts, each provider's mapped total is at most its original
amount. -/
theorem claim_C2_non_oversubscription (inst : MappingInstance) (r : MappingResult)
    (hids : provider_ids_ok inst) (hamt : ∀ p ∈ inst.providers, 0 ≤ p.amount)
    (hsol : Iterative.Solves inst (.ok r)) :
    ∀ p ∈ r.providers, provider_sum r.mappings p.id ≤ p.amount := by
  obtain ⟨fuel, hf⟩ := hsol
  unfold Iterative.solveF at hf
  obtain ⟨s', hloop, rfl⟩ := map_construct_ok hf
  have hinv : InvP inst s' :=
    solve_loop_preserves false inst (InvP inst)
      (fun s s1 hstep hne hP => InvP_step inst hids.1 hids.2 s s1 hstep hne hP)
      fuel (init_state inst) s' (InvP_init inst hids.1 hamt) hloop
  intro p hp
  have hp' : p ∈ s'.providers := hp
  rcases hinv.2.2.2 p hp' with hmem | ⟨k, -, -, -, hsum⟩
  · have hacc := hinv.2.1 p hmem
    have hnn : 0 ≤ id_amount (s'.unmapped_providers p.article) p.id :=
      id_amount_nonneg p.id (fun pa hpa => (hinv.1 p.article pa hpa).2.2)
    show provider_sum s'.mappings p.id ≤ p.amount
    omega
  · show provider_sum s'.mappings p.id ≤ p.amount
    omega

/-- Witness for C2 on the shared-provider scenario: provider `p` (amount 5)
is mapped for `2 + 2 = 4 ≤ 5`. -/
theorem claim_C2_witness :
    provider_ids_ok exDup ∧ (∀ p ∈ exDup.providers, 0 ≤ p.amount) ∧
    ∀ p ∈ [(⟨"p", "a", 5, none⟩ : Provider), ⟨"p", "a", 5, none⟩],
      provider_sum [(⟨"p", "d1", 2⟩ : Mapping), ⟨"p", "d2", 2⟩] p.id ≤ p.amount :=
  ⟨by decide, by decide,
    claim_C2_non_oversubscription exDup
      ⟨"dup.plan", exDup, [⟨"d1", "a", 2, none⟩, ⟨"d2", "a", 2, none⟩],
        [⟨"p", "a", 5, none⟩, ⟨"p", "a", 5, none⟩],
        [⟨"p", "d1", 2⟩, ⟨"p", "d2", 2⟩]⟩
      (by decide) (by decide) ⟨3, rfl⟩⟩

/-! ## Preservation of the well-formedness invariant (C9, amended) -/

theorem fpl_need_ids_nodup {st : List ProviderAmount} {r : Int}
    (h : ((st.map ProviderAmount.provider).map Provider.id).Nodup) :
    (((find_providers_loop st r).1.map ProviderAmount.provider).map
      Provider.id).Nodup := by
  obtain ⟨t, ht⟩ := fpl_need_prefix st r
  rw [ht, List.map_append] at h
  exact (List.nodup_append.mp h).1

theorem fpl_rest_ids_nodup {st : List ProviderAmount} {r : Int}
    (h : ((st.map ProviderAmount.provider).map Provider.id).Nodup) :
    (((find_providers_loop st r).2.2.map ProviderAmount.provider).map
      Provider.id).Nodup := by
  obtain ⟨t, ht⟩ := fpl_rest_suffix st r
  rw [ht, List.map_append] at h
  exact (List.nodup_append.mp h).2.1

/-- Appending freshly generated demands preserves distinctness of ids. -/
theorem nodup_ids_append_gen {base gen_ds : List Demand} {dc : Nat}
    (h1 : (base.map Demand.id).Nodup)
    (h2 : ∀ x ∈ base, dclass dc x)
    (hg_nodup : (gen_ds.map Demand.id).Nodup)
    (hg_ids : ∀ x ∈ gen_ds, ∃ k, dc + 1 ≤ k ∧ x.id = gen_demand_id k) :
    ((base ++ gen_ds).map Demand.id).Nodup := by
  rw [List.map_append]
  refine List.nodup_append.mpr ⟨h1, hg_nodup, ?_⟩
  intro x hx1 hx2
  obtain ⟨d1, hd1, rfl⟩ := List.mem_map.mp hx1
  obtain ⟨d2, hd2, he2⟩ := List.mem_map.mp hx2
  obtain ⟨k2, hk2, hid2⟩ := hg_ids d2 hd2
  rcases h2 d1 hd1 with hh | ⟨k1, -, hk12, hid1⟩
  · apply hh
    rw [← he2, hid2]
    exact gen_demand_id_head k2
  · have : k1 = k2 := gen_demand_id_inj (by rw [← hid1, ← he2]; exact hid2)
    omega

theorem InvU_step (inst : MappingInstance)
    (HP2 : ∀ p ∈ inst.providers, p.id.data.head? ≠ some '[')
    (s s' : IterState) (hstep : iter_step false inst s = .ok s')
    (hne : s.queue ≠ []) (hinv : InvU inst s) : InvU inst s' := by
  obtain ⟨h1, h2, h3, h4, h5, h6, h7⟩ := hinv
  cases hq : s.queue with
  | nil => exact absurd hq hne
  | cons d qrest =>
  rw [hq] at h1 h2
  have hd_not_demands : ∀ x ∈ s.demands, x.id ≠ d.id := by
    intro x hx he
    have hdis : (s.demands.map Demand.id).Disjoint ((d :: qrest).map Demand.id) :=
      List.disjoint_of_nodup_append (by simpa using h1)
    exact hdis (he ▸ List.mem_map_of_mem Demand.id hx) (by simp)
  have hmap_ne_d : ∀ m ∈ s.mappings, m.demand ≠ d.id := by
    intro m hm he
    obtain ⟨x, hx, hxe⟩ := h5 m hm
    exact hd_not_demands x hx (hxe ▸ he)
  have hneed_mem : ∀ pa ∈ (find_providers false (s.unmapped_providers d.article)
      d.amount).1, pa.provider ∈ inst.providers := by
    intro pa hpa
    rw [find_providers_false] at hpa
    obtain ⟨pa0, h0, he⟩ := fpl_need_provider_mem hpa
    exact he ▸ (h3 d.article pa0 h0).1
  have hneed_pos : ∀ pa ∈ (find_providers false (s.unmapped_providers d.article)
      d.amount).1, 0 < pa.amount := by
    intro pa hpa
    rw [find_providers_false] at hpa
    refine fpl_need_pos (s.unmapped_providers d.article) d.amount ?_ pa hpa
    intro x hx
    exact (h3 d.article x hx).2.2
  have hblock_demand : ∀ m ∈ (find_providers false (s.unmapped_providers d.article)
      d.amount).1.map (fun pa => Mapping.mk pa.provider.id d.id pa.amount),
      m.demand = d.id := by
    intro m hm
    obtain ⟨pa, -, rfl⟩ := List.mem_map.mp hm
    rfl
  have hblock_inst : ∀ m ∈ (find_providers false (s.unmapped_providers d.article)
      d.amount).1.map (fun pa => Mapping.mk pa.provider.id d.id pa.amount),
      ∃ q ∈ inst.providers, m.provider = q.id := by
    intro m hm
    obtain ⟨pa, hpa, rfl⟩ := List.mem_map.mp hm
    exact ⟨pa.provider, hneed_mem pa hpa, rfl⟩
  have hblock_pos : ∀ m ∈ (find_providers false (s.unmapped_providers d.article)
      d.amount).1.map (fun pa => Mapping.mk pa.provider.id d.id pa.amount),
      0 < m.amount := by
    intro m hm
    obtain ⟨pa, hpa, rfl⟩ := List.mem_map.mp hm
    exact hneed_pos pa hpa
  have hblock_pairwise : List.Pairwise
      (fun m1 m2 : Mapping => m1.provider ≠ m2.provider ∨ m1.demand ≠ m2.demand)
      ((find_providers false (s.unmapped_providers d.article)
        d.amount).1.map (fun pa => Mapping.mk pa.provider.id d.id pa.amount)) := by
    have hn : List.Pairwise Ne (((find_providers false (s.unmapped_providers
        d.article) d.amount).1.map ProviderAmount.provider).map Provider.id) := by
      rw [find_providers_false]
      exact fpl_need_ids_nodup (h4 d.article)
    rw [List.pairwise_map, List.pairwise_map] at hn
    rw [List.pairwise_map]
    exact hn.imp (fun h => Or.inl h)
  have hstack3 : ∀ a, ∀ pa ∈ update_stacks s.unmapped_providers d.article
      (find_providers false (s.unmapped_providers d.article) d.amount).2.2 a,
      pa.provider ∈ inst.providers ∧ pa.provider.article = a ∧ 0 < pa.amount := by
    intro a pa hpa
    by_cases hax : a = d.article
    · subst hax
      rw [update_stacks_same] at hpa
      rw [find_providers_false] at hpa
      obtain ⟨pa0, h0, he⟩ := fpl_rest_provider_mem hpa
      obtain ⟨hm, ha, -⟩ := h3 d.article pa0 h0
      have hpos : 0 < pa.amount := by
        refine fpl_rest_pos (s.unmapped_providers d.article) d.amount ?_ pa hpa
        intro x hx
        exact (h3 d.article x hx).2.2
      exact ⟨he ▸ hm, he ▸ ha, hpos⟩
    · rw [update_stacks_other _ _ _ _ hax] at hpa
      exact h3 a pa hpa
  have hstack4 : ∀ a, (((update_stacks s.unmapped_providers d.article
      (find_providers false (s.unmapped_providers d.article) d.amount).2.2 a).map
      ProviderAmount.provider).map Provider.id).Nodup := by
    intro a
    by_cases hax : a = d.article
    · subst hax
      rw [update_stacks_same, find_providers_false]
      exact fpl_rest_ids_nodup (h4 d.article)
    · rw [update_stacks_other _ _ _ _ hax]
      exact h4 a
  have hcross : ∀ m1 ∈ s.mappings, ∀ m2 : Mapping, m2.demand = d.id →
      m1.provider ≠ m2.provider ∨ m1.demand ≠ m2.demand := by
    intro m1 hm1 m2 hm2
    right
    rw [hm2]
    exact hmap_ne_d m1 hm1
  rcases iter_step_ok_fields false inst s s' d qrest hq hstep with
    ⟨hrem, ap, hprod, hdc, hpc, hqs, hst, hdem, hprov, hmap⟩ |
    ⟨hrem, hdc, hpc, hqs, hst, hdem, hprov, hmap⟩
  · refine ⟨?_, ?_, ?_, ?_, ?_, ?_, ?_⟩
    · rw [hdem, hqs]
      have hre : s.demands ++ [d] ++ (qrest ++ gen_new_demands ap s.demand_counter
          (find_providers false (s.unmapped_providers d.article) d.amount).2.1) =
          (s.demands ++ d :: qrest) ++ gen_new_demands ap s.demand_counter
            (find_providers false (s.unmapped_providers d.article) d.amount).2.1 := by
        simp
      rw [hre]
      refine nodup_ids_append_gen h1 h2 (gen_new_demands_ids_nodup ap _ _) ?_
      intro x hx
      obtain ⟨⟨k, hk1, -, hid⟩, -⟩ := gen_new_demands_mem hx
      exact ⟨k, hk1, hid⟩
    · intro x hx
      rw [hdem, hqs] at hx
      rw [hdc]
      simp only [List.mem_append, List.mem_singleton] at hx
      rcases hx with (hx | hx) | hx | hx
      · exact dclass_mono (Nat.le_add_right _ _) (h2 x (by simp [hx]))
      · subst hx
        exact dclass_mono (Nat.le_add_right _ _) (h2 x (by simp))
      · exact dclass_mono (Nat.le_add_right _ _) (h2 x (by simp [hx]))
      · obtain ⟨⟨k, hk1, hk2, hid⟩, -⟩ := gen_new_demands_mem hx
        exact Or.inr ⟨k, by omega, by omega, hid⟩
    · rw [hst]
      exact hstack3
    · rw [hst]
      exact hstack4
    · intro m hm
      rw [hmap] at hm
      rw [hdem]
      simp only [List.mem_append, List.mem_singleton] at hm
      rcases hm with (hm | hm) | rfl
      · obtain ⟨x, hx, he⟩ := h5 m hm
        exact ⟨x, by simp [hx], he⟩
      · exact ⟨d, by simp, hblock_demand m hm⟩
      · exact ⟨d, by simp, rfl⟩
    · rw [hmap]
      unfold mappings_pairwise_unique
      rw [List.pairwise_append, List.pairwise_append]
      refine ⟨⟨h6, hblock_pairwise, ?_⟩, ?_, ?_⟩
      · intro m1 hm1 m2 hm2
        exact hcross m1 hm1 m2 (hblock_demand m2 hm2)
      · exact List.pairwise_singleton _ _
      · intro m1 hm1 m2 hm2
        rw [List.mem_singleton] at hm2
        subst hm2
        rcases List.mem_append.mp hm1 with hm1 | hm1
        · exact hcross m1 hm1 _ rfl
        · left
          obtain ⟨q, hq', he⟩ := hblock_inst m1 hm1
          rw [he]
          exact ne_gen_provider_id (HP2 q hq') (s.provider_counter + 1)
    · intro m hm
      rw [hmap] at hm
      simp only [List.mem_append, List.mem_singleton] at hm
      rcases hm with (hm | hm) | rfl
      · exact h7 m hm
      · exact hblock_pos m hm
      · exact hrem
  · refine ⟨?_, ?_, ?_, ?_, ?_, ?_, ?_⟩
    · rw [hdem, hqs]
      have hre : s.demands ++ [d] ++ qrest = s.demands ++ d :: qrest := by simp
      rw [hre]
      exact h1
    · intro x hx
      rw [hdem, hqs] at hx
      rw [hdc]
      simp only [List.mem_append, List.mem_singleton] at hx
      rcases hx with (hx | hx) | hx
      · exact h2 x (by simp [hx])
      · subst hx
        exact h2 x (by simp)
      · exact h2 x (by simp [hx])
    · rw [hst]
      exact hstack3
    · rw [hst]
      exact hstack4
    · intro m hm
      rw [hmap] at hm
      rw [hdem]
      rcases List.mem_append.mp hm with hm | hm
      · obtain ⟨x, hx, he⟩ := h5 m hm
        exact ⟨x, by simp [hx], he⟩
      · exact ⟨d, by simp, hblock_demand m hm⟩
    · rw [hmap]
      unfold mappings_pairwise_unique
      rw [List.pairwise_append]
      refine ⟨h6, hblock_pairwise, ?_⟩
      intro m1 hm1 m2 hm2
      exact hcross m1 hm1 m2 (hblock_demand m2 hm2)
    · intro m hm
      rw [hmap] at hm
      rcases List.mem_append.mp hm with hm | hm
      · exact h7 m hm
      · exact hblock_pos m hm

theorem InvU_init (inst : MappingInstance)
    (HD1 : (inst.demands.map Demand.id).Nodup)
    (HD2 : ∀ d ∈ inst.demands, d.id.data.head? ≠ some '[')
    (HP1 : (inst.providers.map Provider.id).Nodup)
    (HPA : ∀ p ∈ inst.providers, 0 < p.amount) : InvU inst (init_state inst) := by
  refine ⟨?_, ?_, ?_, ?_, ?_, ?_, ?_⟩
  · show (([] ++ inst.demands).map Demand.id).Nodup
    simpa using HD1
  · intro d hd
    exact Or.inl (HD2 d (by simpa [init_state] using hd))
  · intro a pa hpa
    have hpa' : pa ∈ init_stacks inst.providers a := hpa
    obtain ⟨hm, ha, he⟩ := init_stacks_mem hpa'
    exact ⟨hm, ha, he ▸ HPA pa.provider hm⟩
  · intro a
    exact init_stacks_ids_nodup inst.providers HP1 a
  · intro m hm
    exact absurd hm (List.not_mem_nil m)
  · show mappings_pairwise_unique []
    exact List.Pairwise.nil
  · intro m hm
    exact absurd hm (List.not_mem_nil m)

/-- C9 (amended): on an instance with pairwise-distinct, non-generated ids,
strictly positive provider amounts (strengthened from the claim's `≥ 0` —
see the counterexample) and positive demand amounts, every mapping of an
`Iterative.solve` result has a strictly positive amount and mappings are
unique per `(provider, demand)` pair. -/
theorem claim_C9_mapping_wellformedness (inst : MappingInstance) (r : MappingResult)
    (hdids : demand_ids_ok inst) (hpids : provider_ids_ok inst)
    (hpa : ∀ p ∈ inst.providers, 0 < p.amount)
    (_hda : ∀ d ∈ inst.demands, 0 < d.amount)
    (hsol : Iterative.Solves inst (.ok r)) :
    (∀ m ∈ r.mappings, 0 < m.amount) ∧ mappings_pairwise_unique r.mappings := by
  obtain ⟨fuel, hf⟩ := hsol
  unfold Iterative.solveF at hf
  obtain ⟨s', hloop, rfl⟩ := map_construct_ok hf
  have hinv : InvU inst s' :=
    solve_loop_preserves false inst (InvU inst)
      (fun s s1 hstep hne hP => InvU_step inst hpids.2 s s1 hstep hne hP)
      fuel (init_state inst) s'
      (InvU_init inst hdids.1 hdids.2 hpids.1 hpa) hloop
  exact ⟨hinv.2.2.2.2.2.2, hinv.2.2.2.2.2.1⟩

/-- Witness for the amended C9 on the shared-provider scenario. -/
theorem claim_C9_witness :
    demand_ids_ok exDup ∧ provider_ids_ok exDup ∧
    (∀ p ∈ exDup.providers, 0 < p.amount) ∧ (∀ d ∈ exDup.demands, 0 < d.amount) ∧
    (∀ m ∈ [(⟨"p", "d1", 2⟩ : Mapping), ⟨"p", "d2", 2⟩], 0 < m.amount) ∧
    mappings_pairwise_unique [(⟨"p", "d1", 2⟩ : Mapping), ⟨"p", "d2", 2⟩] := by
  have h := claim_C9_mapping_wellformedness exDup
    ⟨"dup.plan", exDup, [⟨"d1", "a", 2, none⟩, ⟨"d2", "a", 2, none⟩],
      [⟨"p", "a", 5, none⟩, ⟨"p", "a", 5, none⟩],
      [⟨"p", "d1", 2⟩, ⟨"p", "d2", 2⟩]⟩
    (by decide) (by decide) (by decide) (by decide) ⟨3, rfl⟩
  exact ⟨by decide, by decide, by decide, by decide, h.1, h.2⟩

/-! ## Termination on acyclic recipe graphs (C4) -/

theorem foldl_max_le_init (l : List ArticleProduction) (acc : Nat) :
    acc ≤ l.foldl (fun a x => max a x.requirements.length) acc := by
  induction l generalizing acc with
  | nil => exact le_refl _
  | cons x l ih => exact le_trans (le_max_left _ _) (ih (max acc x.requirements.length))

theorem le_max_req {inst : MappingInstance} {ap : ArticleProduction}
    (h : ap ∈ inst.article_productions) : ap.requirements.length ≤ max_req inst := by
  unfold max_req
  have aux : ∀ (l : List ArticleProduction) (acc : Nat), ap ∈ l →
      ap.requirements.length ≤ l.foldl (fun a x => max a x.requirements.length) acc := by
    intro l
    induction l with
    | nil => intro acc hmem; cases hmem
    | cons x l ih =>
        intro acc hmem
        rcases List.mem_cons.mp hmem with rfl | hmem
        · exact le_trans (le_max_right acc _) (foldl_max_le_init l _)
        · exact ih _ hmem
  exact aux _ 0 h

theorem one_le_dweight (inst : MappingInstance) (h : T_ArticleId → Nat)
    (a : T_ArticleId) : 1 ≤ dweight inst h a :=
  Nat.one_le_pow _ _ (Nat.succ_pos _)

theorem dmeasure_append (inst : MappingInstance) (h : T_ArticleId → Nat)
    (q1 q2 : List Demand) :
    dmeasure inst h (q1 ++ q2) = dmeasure inst h q1 + dmeasure inst h q2 := by
  simp [dmeasure]

theorem dmeasure_cons (inst : MappingInstance) (h : T_ArticleId → Nat)
    (d : Demand) (q : List Demand) :
    dmeasure inst h (d :: q) = dweight inst h d.article + dmeasure inst h q := by
  simp [dmeasure]

/-- The demands generated for a production weigh strictly less than one
demand for its output article. -/
theorem dmeasure_gen_lt (inst : MappingInstance) (h : T_ArticleId → Nat)
    (hr : rank_ok inst h) (ap : ArticleProduction)
    (hap : ap ∈ inst.article_productions) (dc : Nat) (amt : Int) :
    dmeasure inst h (gen_new_demands ap dc amt) < dweight inst h ap.article := by
  have hw : dmeasure inst h (gen_new_demands ap dc amt) =
      ((ap.requirements.enum.map (fun p => dweight inst h p.2.1))).sum := by
    unfold dmeasure gen_new_demands
    rw [List.map_map]
    rfl
  rw [hw]
  by_cases hreq : ap.requirements = []
  · rw [hreq]
    simp only [List.enum_nil, List.map_nil, List.sum_nil]
    exact one_le_dweight inst h ap.article
  · obtain ⟨r0, hr0⟩ := List.exists_mem_of_ne_nil ap.requirements hreq
    have hpos : 1 ≤ h ap.article := by
      have := hr ap hap r0 hr0
      omega
    have hbound : ∀ x ∈ ap.requirements.enum.map (fun p => dweight inst h p.2.1),
        x ≤ (max_req inst + 1) ^ (h ap.article - 1) := by
      intro x hx
      obtain ⟨⟨i, r⟩, hm, rfl⟩ := List.mem_map.mp hx
      have hg := List.mem_enum_iff_getElem?.mp hm
      simp only [] at hg
      have hmem : r ∈ ap.requirements := List.getElem?_mem hg
      have hlt := hr ap hap r hmem
      show (max_req inst + 1) ^ (h r.1) ≤ (max_req inst + 1) ^ (h ap.article - 1)
      exact Nat.pow_le_pow_right (Nat.succ_pos _) (by omega)
    have hsum := List.sum_le_card_nsmul _ _ hbound
    rw [List.length_map, List.enum_length] at hsum
    have hlen : ap.requirements.length ≤ max_req inst := le_max_req hap
    have hstep : ap.requirements.length • (max_req inst + 1) ^ (h ap.article - 1) ≤
        max_req inst * (max_req inst + 1) ^ (h ap.article - 1) := by
      rw [smul_eq_mul]
      exact Nat.mul_le_mul_right _ hlen
    have hfin : max_req inst * (max_req inst + 1) ^ (h ap.article - 1) <
        dweight inst h ap.article := by
      unfold dweight
      have he : h ap.article = (h ap.article - 1) + 1 := by omega
      rw [he, pow_succ]
      have hx : 0 < (max_req inst + 1) ^ (h ap.article - 1) :=
        Nat.pos_pow_of_pos _ (Nat.succ_pos _)
      calc max_req inst * (max_req inst + 1) ^ (h ap.article - 1)
          < (max_req inst + 1) * (max_req inst + 1) ^ (h ap.article - 1) :=
            Nat.mul_lt_mul_of_lt_of_le (Nat.lt_succ_self _) (le_refl _) hx
        _ = (max_req inst + 1) ^ (h ap.article - 1) * (max_req inst + 1) := by ring
    exact lt_of_le_of_lt (le_trans hsum hstep) hfin

/-- Each successful step strictly decreases the queue measure. -/
theorem dmeasure_step (inst : MappingInstance) (h : T_ArticleId → Nat)
    (hr : rank_ok inst h) (s s' : IterState)
    (hstep : iter_step false inst s = .ok s') (hne : s.queue ≠ []) :
    dmeasure inst h s'.queue < dmeasure inst h s.queue := by
  cases hq : s.queue with
  | nil => exact absurd hq hne
  | cons d qrest =>
  rcases iter_step_ok_fields false inst s s' d qrest hq hstep with
    ⟨hrem, ap, hprod, hdc, hpc, hqs, hst, hdem, hprov, hmap⟩ |
    ⟨hrem, hdc, hpc, hqs, hst, hdem, hprov, hmap⟩
  · obtain ⟨hapmem, hapa⟩ := productions_lookup_mem hprod
    rw [hqs, dmeasure_append, dmeasure_cons]
    have := dmeasure_gen_lt inst h hr ap hapmem s.demand_counter
      (find_providers false (s.unmapped_providers d.article) d.amount).2.1
    rw [hapa] at this
    omega
  · rw [hqs, dmeasure_cons]
    have := one_le_dweight inst h d.article
    omega

/-- Fuel equal to the initial measure suffices for the loop to finish. -/
theorem solve_loop_total (inst : MappingInstance) (h : T_ArticleId → Nat)
    (hr : rank_ok inst h) :
    ∀ fuel s, dmeasure inst h s.queue ≤ fuel →
      (solve_loop false inst fuel s).isSome := by
  intro fuel
  induction fuel with
  | zero =>
      intro s hm
      cases hq : s.queue with
      | nil =>
          have hempty : s.queue.isEmpty = true := by rw [hq]; rfl
          simp [solve_loop, hempty]
      | cons d rest =>
          rw [hq, dmeasure_cons] at hm
          have := one_le_dweight inst h d.article
          omega
  | succ fuel ih =>
      intro s hm
      by_cases hq : s.queue.isEmpty
      · simp [solve_loop, hq]
      · simp only [solve_loop, hq, ite_false, Bool.false_eq_true]
        cases hstep : iter_step false inst s with
        | error e => simp
        | ok s1 =>
            have hne : s.queue ≠ [] := fun he => hq (by rw [he]; rfl)
            have hdec := dmeasure_step inst h hr s s1 hstep hne
            exact ih s1 (by omega)

/-- C4: if the recipe graph is acyclic — witnessed by a rank function on
articles that strictly decreases from each production's output to each of
its requirements — then `Iterative.solve` terminates: some finite fuel (the
initial queue measure) makes the main loop finish, either emptying the queue
or surfacing an error. -/
theorem claim_C4_termination (inst : MappingInstance) (h : T_ArticleId → Nat)
    (hr : rank_ok inst h) : ∃ fuel, (Iterative.solveF inst fuel).isSome := by
  refine ⟨dmeasure inst h inst.demands, ?_⟩
  unfold Iterative.solveF
  have htot := solve_loop_total inst h hr (dmeasure inst h inst.demands)
    (init_state inst) (le_refl _)
  cases hx : solve_loop false inst (dmeasure inst h inst.demands) (init_state inst) with
  | none => rw [hx] at htot; cases htot
  | some x => rfl

/-- Witness for C4 on the BOM scenario, ranked by `"1" ↦ 1`, others `0`. -/
theorem claim_C4_witness :
    rank_ok exBom (fun a => if a = "1" then 1 else 0) ∧
    ∃ fuel, (Iterative.solveF exBom fuel).isSome :=
  ⟨by decide,
    claim_C4_termination exBom (fun a => if a = "1" then 1 else 0) (by decide)⟩

end IRM
